import Mathlib

/-!
# Verification of the rise deployment engine (template synthesis and orchestration)

Shallow embedding of the JavaScript sources of the `rise` serverless
deployment toolchain: the update-step error recovery, the function /
route / trigger resource builders and the post-deploy ping step.
JavaScript objects are modelled as association lists in insertion order
(`jsInsert` is JS property assignment: replace in place if the key is
present, append otherwise), `undefined`-able fields as `Option`, and
promise outcomes as an explicit resolved/rejected sum.
-/

set_option maxHeartbeats 1000000

namespace Rise

/-- JS `obj[k] = v` on an object in insertion order: if the key is present its
value is replaced in place, otherwise the pair is appended. -/
def jsInsert {β : Type} (m : List (String × β)) (k : String) (v : β) : List (String × β) :=
  if m.any (fun p => p.1 = k) then
    m.map (fun p => if p.1 = k then (k, v) else p)
  else
    m ++ [(k, v)]

/-- JS property read `obj[k]`: the value at the first occurrence of the key. -/
def jsLookup {β : Type} (m : List (String × β)) (k : String) : Option β :=
  match m with
  | [] => none
  | p :: rest => if p.1 = k then some p.2 else jsLookup rest k

/-- JS `Object.assign(target, extra)`: fold every property of `extra`
into `target` in order, replacing on collision (last writer wins). -/
def jsAssign {β : Type} (m extra : List (String × β)) : List (String × β) :=
  extra.foldl (fun d p => jsInsert d p.1 p.2) m

/-- Whether `pat` occurs as a contiguous sublist of `s`. -/
def listContains (pat : List Char) : List Char → Bool
  | [] => pat.isEmpty
  | c :: rest => pat.isPrefixOf (c :: rest) || listContains pat rest

/-- JS `s.indexOf(pat) !== -1`: the pattern occurs somewhere in `s`
(an empty pattern is found at index 0, as in JS). -/
def strContains (s pat : String) : Bool :=
  listContains pat.data s.data

/-- JS `s.startsWith(p)`, via character lists. -/
def strStartsWith (s p : String) : Bool :=
  p.data.isPrefixOf s.data

/-! ## Deploy session and the update-step catch handler (src/unnamed/part_002, `updateStack`) -/

/-- Outcome of a promise chain: resolve with a value or reject with an error
message. -/
inductive PromiseResult (α : Type) where
  | resolved (value : α)
  | rejected (errMsg : String)
deriving DecidableEq, Repr

/-- The deploy-session field the update step's catch handler consults:
the orchestrator state tag (`INIT`, `UPDATING`, `UPDATED`, ...). -/
structure Session where
  state : String
deriving DecidableEq, Repr

/-- The `.catch` handler of `updateStack` in src/unnamed/part_002 (lines 92-105):
given the session and the rejection's `err.message` (`""` models a falsy
message), it resolves the session when the message contains
`No updates are to be performed`, or when the message contains
`Resource is not in the state stackUpdateComplete` while `session.state`
differs from `'UPDATING'`; otherwise it re-rejects the same error. -/
def updateStackCatch (session : Session) (errMsg : String) : PromiseResult Session :=
  if errMsg ≠ "" then
    if strContains errMsg "No updates are to be performed" then
      .resolved session
    else if session.state ≠ "UPDATING" ∧
        strContains errMsg "Resource is not in the state stackUpdateComplete" then
      .resolved session
    else
      .rejected errMsg
  else
    .rejected errMsg

end Rise

namespace Rise

/-- C1 counterexample input: the not-ready message produced by the provider. -/
def notReadyMsg : String :=
  "ResourceNotReady: Resource is not in the state stackUpdateComplete"

/-- C1: the claim states that the not-ready error is recovered as success
when the session's own state shows mid-update (`UPDATING`). On the code the
opposite holds: with `state = "UPDATING"` and a message containing
`Resource is not in the state stackUpdateComplete`, the catch handler
re-rejects the error instead of resolving the session. -/
theorem updateStackCatch_notReady_midUpdate_rejects :
    strContains notReadyMsg "Resource is not in the state stackUpdateComplete" = true ∧
    updateStackCatch ⟨"UPDATING"⟩ notReadyMsg = .rejected notReadyMsg := by
  constructor
  · decide
  · decide

/-- C1 (amended): if the rejection message contains
`Resource is not in the state stackUpdateComplete` and the session's state
is NOT the mid-update tag `UPDATING` (it was changed by an external
cancellation), the update step resolves with the session unchanged. -/
theorem updateStackCatch_notReady_recovered (s : Session) (msg : String)
    (hstate : s.state ≠ "UPDATING")
    (hmsg : strContains msg "Resource is not in the state stackUpdateComplete" = true) :
    updateStackCatch s msg = .resolved s := by
  have hne : msg ≠ "" := by
    intro h
    rw [h] at hmsg
    revert hmsg
    decide
  unfold updateStackCatch
  rw [if_pos hne]
  by_cases hno : strContains msg "No updates are to be performed" = true
  · rw [if_pos hno]
  · rw [if_neg hno, if_pos ⟨hstate, hmsg⟩]

/-- Witness for C1 (amended) at a concrete cancelled session. -/
theorem updateStackCatch_notReady_recovered_witness :
    updateStackCatch ⟨"UPDATED"⟩ notReadyMsg = .resolved ⟨"UPDATED"⟩ :=
  updateStackCatch_notReady_recovered ⟨"UPDATED"⟩ notReadyMsg (by decide) (by decide)

/-- C2: a rejection whose message contains `No updates are to be performed`
is resolved as success with the session unchanged; any other error — i.e.
one matching neither that condition nor the separately-recognized
not-ready-while-cancelled condition — is re-rejected unchanged. -/
theorem updateStackCatch_noUpdates_success_others_propagate (s : Session) (msg : String) :
    (strContains msg "No updates are to be performed" = true →
      updateStackCatch s msg = .resolved s) ∧
    (strContains msg "No updates are to be performed" = false →
      ¬ (s.state ≠ "UPDATING" ∧
         strContains msg "Resource is not in the state stackUpdateComplete" = true) →
      updateStackCatch s msg = .rejected msg) := by
  constructor
  · intro hyes
    have hne : msg ≠ "" := by
      intro h
      rw [h] at hyes
      revert hyes
      decide
    unfold updateStackCatch
    rw [if_pos hne, if_pos hyes]
  · intro hno hnot
    unfold updateStackCatch
    by_cases hne : msg ≠ ""
    · rw [if_pos hne, if_neg (by simp [hno]), if_neg hnot]
    · rw [if_neg hne]

/-- Witness for C2 at concrete inputs: the no-updates message resolves the
session unchanged, and an unrelated error is re-rejected unchanged. -/
theorem updateStackCatch_noUpdates_success_others_propagate_witness :
    updateStackCatch ⟨"UPDATING"⟩ "No updates are to be performed." =
      .resolved ⟨"UPDATING"⟩ ∧
    updateStackCatch ⟨"UPDATING"⟩ "Access denied" = .rejected "Access denied" :=
  ⟨(updateStackCatch_noUpdates_success_others_propagate ⟨"UPDATING"⟩
      "No updates are to be performed.").1 (by decide),
   (updateStackCatch_noUpdates_success_others_propagate ⟨"UPDATING"⟩
      "Access denied").2 (by decide) (by decide)⟩

end Rise

namespace Rise

/-! ## Data model for the builders -/

/-- One trigger declaration: in the manifest a single-key mapping of
kind → configuration; the configuration payload is kept abstract as a
string token. -/
structure TriggerDecl where
  kind : String
  config : String
deriving DecidableEq, Repr

/-- One manifest entry for a function: optional timeout, memory, trigger
list, and the "bare" marker (absent fields are JS `undefined`). -/
structure FuncConfig where
  timeout : Option Nat := none
  memory : Option Nat := none
  triggers : Option (List TriggerDecl) := none
  bare : Bool := false
deriving DecidableEq, Repr

/-- The function manifest: keys in insertion order; a key may map to a JS
`null`/`undefined` value, modelled as `none`. -/
abbrev Manifest := List (String × Option FuncConfig)

/-- Truthy read `functions[k]`: `some cfg` only when the key is present
with a non-null value. -/
def manifestGet (functions : Manifest) (k : String) : Option FuncConfig :=
  match jsLookup functions k with
  | some (some cfg) => some cfg
  | _ => none

/-- One uploaded-package record (`session.compressedFunctions` entry): the
function's name and its remote storage key. -/
structure UploadedFunction where
  functionName : String
  uploadPath : String
deriving DecidableEq, Repr

/-- Reference to the parent/owning API resource: the distinguished root
(`Fn::GetAtt [RiseAPI, RootResourceId]`) or a named resource (`Ref`). -/
inductive ParentRef where
  | root
  | ref (name : String)
deriving DecidableEq, Repr

/-- A synthesized template fragment. The JS code produces these by splicing
values into fixed JSON template files (which sit next to the sources);
each constructor records exactly the spliced values. -/
inductive Resource where
  | lambdaFunction (handler s3Key s3Bucket : String) (timeout memorySize : Option Nat)
  | lambdaVersion (functionName : String)
  | lambdaPermission (functionName : String)
  | apiResource (pathPart : String) (parentId : ParentRef)
  | apiMethod (httpMethod functionName : String) (resourceId : ParentRef)
  | apiCors (corsMethods : String) (resourceId : ParentRef)
  | s3TriggerRes (config funcName : String)
  | cloudWatchEventTriggerRes (config funcName : String)
  | cloudWatchLogsTriggerRes (config funcName region : String)
  | streamTriggerRes (config funcName : String)
  | snsTriggerRes (config funcName : String)
deriving DecidableEq, Repr

/-- A template document / fragment set: logical name → resource, in
insertion order. -/
abbrev Doc := List (String × Resource)

/-! ## Function Resource Builder (src/unnamed/part_002, `getFunctionResources`) -/

/-- The built-in default settings record `{timeout: 3, memory: 128}` used
when the manifest has no (truthy) `default` entry. -/
def builtinDefaultSetting : FuncConfig :=
  { timeout := some 3, memory := some 128 }

/-- The timeout spliced for `funcName`: start from
`(functions.default || {timeout: 3, memory: 128}).timeout` and overwrite
with the function's own `timeout` when its entry is truthy and the field
is non-null. -/
def resolvedTimeout (functions : Manifest) (funcName : String) : Option Nat :=
  let defaultSetting := (manifestGet functions "default").getD builtinDefaultSetting
  match manifestGet functions funcName with
  | some func =>
    match func.timeout with
    | some t => some t
    | none => defaultSetting.timeout
  | none => defaultSetting.timeout

/-- The memory size spliced for `funcName`, resolved like `resolvedTimeout`
from the `memory` fields. -/
def resolvedMemory (functions : Manifest) (funcName : String) : Option Nat :=
  let defaultSetting := (manifestGet functions "default").getD builtinDefaultSetting
  match manifestGet functions funcName with
  | some func =>
    match func.memory with
    | some m => some m
    | none => defaultSetting.memory
  | none => defaultSetting.memory

/-- The body of the `getFunctionResources` loop: for one uploaded-package
record, add the runnable-unit fragment under the function's name and the
version / permission fragments under `<name>Version` / `<name>Permission`. -/
def functionResourceStep (bucketName : String) (functions : Manifest)
    (resources : Doc) (uf : UploadedFunction) : Doc :=
  let funcName := uf.functionName
  let resources := jsInsert resources funcName
    (.lambdaFunction "index" uf.uploadPath bucketName
      (resolvedTimeout functions funcName) (resolvedMemory functions funcName))
  let resources := jsInsert resources (funcName ++ "Version") (.lambdaVersion funcName)
  jsInsert resources (funcName ++ "Permission") (.lambdaPermission funcName)

/-- `getFunctionResources`: run the loop body over every uploaded-package
record, in order, with no filtering on the name (the `version` argument is
taken but, as in the source, not used in the emitted fragments). -/
def getFunctionResources (bucketName version : String) (functions : Manifest)
    (uploadedFunctions : List UploadedFunction) : Doc :=
  uploadedFunctions.foldl (functionResourceStep bucketName functions) []

end Rise

namespace Rise

/-! ### Lemmas about JS-object insertion and lookup -/

theorem mem_jsInsert {β : Type} {m : List (String × β)} {k : String} {v : β} {q : String × β}
    (h : q ∈ jsInsert m k v) : q = (k, v) ∨ q ∈ m := by
  unfold jsInsert at h
  split at h
  · rcases List.mem_map.mp h with ⟨p, hp, hq⟩
    by_cases hk : p.1 = k
    · rw [if_pos hk] at hq
      exact Or.inl hq.symm
    · rw [if_neg hk] at hq
      exact Or.inr (hq ▸ hp)
  · rcases List.mem_append.mp h with h1 | h1
    · exact Or.inr h1
    · exact Or.inl (List.mem_singleton.mp h1)

end Rise

namespace Rise

theorem jsLookup_append {β : Type} (m1 m2 : List (String × β)) (k : String) :
    jsLookup (m1 ++ m2) k =
      ((jsLookup m1 k).rec (jsLookup m2 k) (fun v => some v) : Option β) := by
  induction m1 with
  | nil => simp [jsLookup]
  | cons p rest ih =>
    rw [List.cons_append, jsLookup, jsLookup]
    by_cases hp : p.1 = k
    · rw [if_pos hp, if_pos hp]
    · rw [if_neg hp, if_neg hp]
      exact ih

theorem jsLookup_replaceMap_self {β : Type} (m : List (String × β)) (k : String) (v : β)
    (hmem : m.any (fun p => p.1 = k) = true) :
    jsLookup (m.map (fun p => if p.1 = k then (k, v) else p)) k = some v := by
  induction m with
  | nil => simp at hmem
  | cons p rest ih =>
    rw [List.map_cons]
    by_cases hp : p.1 = k
    · rw [if_pos hp, jsLookup, if_pos rfl]
    · rw [if_neg hp, jsLookup, if_neg hp]
      apply ih
      simp [List.any_cons, hp] at hmem
      simpa using hmem

theorem jsLookup_replaceMap_other {β : Type} (m : List (String × β)) (k k' : String) (v : β)
    (h : k' ≠ k) :
    jsLookup (m.map (fun p => if p.1 = k then (k, v) else p)) k' = jsLookup m k' := by
  induction m with
  | nil => rfl
  | cons p rest ih =>
    rw [List.map_cons]
    by_cases hp : p.1 = k
    · rw [if_pos hp, jsLookup, jsLookup, if_neg (fun hh => h hh.symm), if_neg (hp ▸ fun hh => h hh.symm)]
      exact ih
    · rw [if_neg hp, jsLookup, jsLookup]
      by_cases hpk' : p.1 = k'
      · rw [if_pos hpk', if_pos hpk']
      · rw [if_neg hpk', if_neg hpk']
        exact ih

theorem jsLookup_jsInsert_self {β : Type} (m : List (String × β)) (k : String) (v : β) :
    jsLookup (jsInsert m k v) k = some v := by
  unfold jsInsert
  by_cases hmem : m.any (fun p => p.1 = k) = true
  · rw [if_pos hmem]
    exact jsLookup_replaceMap_self m k v hmem
  · rw [if_neg hmem, jsLookup_append]
    have hnone : jsLookup m k = none := by
      induction m with
      | nil => rfl
      | cons p rest ih =>
        rw [jsLookup]
        simp [List.any_cons] at hmem
        rw [if_neg hmem.1]
        exact ih (by simpa using hmem.2)
    rw [hnone]
    simp [jsLookup]

theorem jsLookup_jsInsert_other {β : Type} (m : List (String × β)) (k k' : String) (v : β)
    (h : k' ≠ k) : jsLookup (jsInsert m k v) k' = jsLookup m k' := by
  unfold jsInsert
  by_cases hmem : m.any (fun p => p.1 = k) = true
  · rw [if_pos hmem]
    exact jsLookup_replaceMap_other m k k' v h
  · rw [if_neg hmem, jsLookup_append]
    cases hm : jsLookup m k' with
    | some w => rfl
    | none =>
      rw [jsLookup, if_neg (fun hh => h hh.symm)]
      rfl

end Rise

namespace Rise

/-! ### String helpers for fragment-name reasoning -/

theorem pref_append_cases {p f g : List Char} (h : p <+: f ++ g) :
    p <+: f ∨ ∃ c, c ≠ [] ∧ p = f ++ c ∧ c <+: g := by
  obtain ⟨t, ht⟩ := h
  rcases List.append_eq_append_iff.mp ht with ⟨a, ha, _⟩ | ⟨c, hc1, hc2⟩
  · exact Or.inl ⟨a, ha.symm⟩
  · by_cases hc : c = []
    · subst hc
      rw [List.append_nil] at hc1
      exact Or.inl (hc1 ▸ List.prefix_rfl)
    · exact Or.inr ⟨c, hc, hc1, ⟨t, hc2.symm⟩⟩

theorem not_pref_append {p f g : List Char}
    (hp : ¬ p <+: f) (hg : ∀ d, g.head? = some d → d ∉ p) :
    ¬ p <+: f ++ g := by
  intro h
  rcases pref_append_cases h with h1 | ⟨c, hc0, hc1, hc2⟩
  · exact hp h1
  · cases c with
    | nil => exact hc0 rfl
    | cons d cs =>
      obtain ⟨t, ht⟩ := hc2
      have hd : g.head? = some d := by
        rw [← ht]
        rfl
      have hmem : d ∈ p := by
        rw [hc1]
        simp
      exact hg d hd hmem

theorem strStartsWith_append_false {f g p : String}
    (hf : strStartsWith f p = false)
    (hg : ∀ d, g.data.head? = some d → d ∉ p.data) :
    strStartsWith (f ++ g) p = false := by
  have hnot : ¬ p.data <+: f.data ++ g.data := by
    apply not_pref_append _ hg
    intro hh
    rw [← List.isPrefixOf_iff_prefix] at hh
    rw [strStartsWith, hh] at hf
    cases hf
  rw [strStartsWith, String.data_append]
  cases hb : p.data.isPrefixOf (f.data ++ g.data)
  · rfl
  · exact absurd ( List.isPrefixOf_iff_prefix.mp hb) hnot

theorem strStartsWith_default_version {f : String}
    (hf : strStartsWith f "default" = false) :
    strStartsWith (f ++ "Version") "default" = false := by
  apply strStartsWith_append_false hf
  intro d hd
  have hdv : d = 'V' := by
    have hh : ("Version" : String).data.head? = some 'V' := by decide
    rw [hh] at hd
    exact (Option.some.inj hd).symm
  subst hdv
  decide

theorem strStartsWith_default_permission {f : String}
    (hf : strStartsWith f "default" = false) :
    strStartsWith (f ++ "Permission") "default" = false := by
  apply strStartsWith_append_false hf
  intro d hd
  have hdp : d = 'P' := by
    have hh : ("Permission" : String).data.head? = some 'P' := by decide
    rw [hh] at hd
    exact (Option.some.inj hd).symm
  subst hdp
  decide

end Rise

namespace Rise

/-! ## C3: function-resource synthesis and the reserved name `default` -/

/-- C3 counterexample: `getFunctionResources` does not filter the reserved
name — when an uploaded-package record with functionName `default` is
present, fragments named `default`, `defaultVersion` and
`defaultPermission` are all emitted. -/
theorem getFunctionResources_default_upload_emits :
    (getFunctionResources "bucket" "v1" [] [⟨"default", "default-v1.zip"⟩]).map Prod.fst =
      ["default", "defaultVersion", "defaultPermission"] := by
  decide

theorem functionResourceStep_names {bucketName : String} {functions : Manifest}
    {acc : Doc} {uf : UploadedFunction} {q : String × Resource}
    (h : q ∈ functionResourceStep bucketName functions acc uf) :
    q.1 = uf.functionName ∨ q.1 = uf.functionName ++ "Version" ∨
    q.1 = uf.functionName ++ "Permission" ∨ q ∈ acc := by
  unfold functionResourceStep at h
  rcases mem_jsInsert h with h1 | h1
  · exact Or.inr (Or.inr (Or.inl (by rw [h1])))
  rcases mem_jsInsert h1 with h2 | h2
  · exact Or.inr (Or.inl (by rw [h2]))
  rcases mem_jsInsert h2 with h3 | h3
  · exact Or.inl (by rw [h3])
  · exact Or.inr (Or.inr (Or.inr h3))

/-- C3 (amended): `getFunctionResources` emits fragments for exactly the
uploaded-package records it is given, with no name filtering of its own;
consequently, when no uploaded record's functionName begins with
`default`, no emitted fragment name begins with `default` (the exclusion
of the reserved manifest entry happens before upload, not here). -/
theorem getFunctionResources_no_default_fragments (bucketName version : String)
    (functions : Manifest) (ups : List UploadedFunction)
    (h : ∀ uf ∈ ups, strStartsWith uf.functionName "default" = false) :
    ∀ q ∈ getFunctionResources bucketName version functions ups,
      strStartsWith q.1 "default" = false := by
  unfold getFunctionResources
  suffices H : ∀ (ups' : List UploadedFunction) (acc : Doc),
      (∀ uf ∈ ups', strStartsWith uf.functionName "default" = false) →
      (∀ q ∈ acc, strStartsWith q.1 "default" = false) →
      ∀ q ∈ ups'.foldl (functionResourceStep bucketName functions) acc,
        strStartsWith q.1 "default" = false by
    exact H ups [] h (by intro q hq; cases hq)
  intro ups'
  induction ups' with
  | nil => intro acc _ hacc q hq; exact hacc q hq
  | cons uf rest ih =>
    intro acc hups hacc q hq
    rw [List.foldl_cons] at hq
    refine ih _ (fun u hu => hups u (List.mem_cons_of_mem uf hu)) ?_ q hq
    intro q' hq'
    have hu := hups uf (List.mem_cons_self uf rest)
    rcases functionResourceStep_names hq' with h1 | h1 | h1 | h1
    · rw [h1]; exact hu
    · rw [h1]; exact strStartsWith_default_version hu
    · rw [h1]; exact strStartsWith_default_permission hu
    · exact hacc q' h1

/-- Witness for C3 (amended) at a concrete deployment: the version
fragment emitted for the normal function `appIndex` has a name that does
not begin with `default`. -/
theorem getFunctionResources_no_default_fragments_witness :
    strStartsWith (("appIndexVersion", Resource.lambdaVersion "appIndex") :
      String × Resource).1 "default" = false :=
  getFunctionResources_no_default_fragments "bucket" "v1" []
    [⟨"appIndex", "appIndex-v1.zip"⟩] (by decide)
    ("appIndexVersion", Resource.lambdaVersion "appIndex") (by decide)

end Rise

namespace Rise

/-! ## C4: timeout/memory resolution chain -/

theorem strAppend_ne_self {f g : String} (hg : 0 < g.length) : f ++ g ≠ f := by
  intro h
  have hlen := congrArg String.length h
  rw [String.length_append] at hlen
  omega

/-- C4 counterexample manifest: a `default` record that sets only
`timeout`. -/
def c4Manifest : Manifest := [("default", some { timeout := some 5 })]

/-- C4 counterexample: with a manifest `default` entry present but lacking
`memory`, the built-in memory 128 is NOT consulted — the emitted
runnable-unit fragment for a function with no manifest entry carries no
memory size at all (JS `undefined`), contradicting the claimed per-field
fallback to the built-ins. -/
theorem getFunctionResources_builtin_not_reached :
    jsLookup (getFunctionResources "bucket" "v1" c4Manifest [⟨"a", "a-v1.zip"⟩]) "a" =
      some (.lambdaFunction "index" "a-v1.zip" "bucket" (some 5) none) ∧
    resolvedMemory c4Manifest "a" ≠ some 128 := by
  constructor
  · decide
  · decide

/-- C4 (amended): the runnable-unit fragment of an uploaded function
carries `resolvedTimeout`/`resolvedMemory`, and these resolve as follows:
an explicit per-function value always wins; otherwise the value comes from
the manifest `default` record when one exists (even when that record lacks
the field, in which case the value is unset rather than the built-in); the
built-ins timeout 3 / memory 128 apply exactly when the manifest has no
(truthy) `default` record; in particular a function with no manifest entry
and no manifest default gets timeout 3 and memory 128. -/
theorem getFunctionResources_resolution (bucketName version : String)
    (functions : Manifest) (uf : UploadedFunction) :
    (jsLookup (getFunctionResources bucketName version functions [uf]) uf.functionName =
      some (.lambdaFunction "index" uf.uploadPath bucketName
        (resolvedTimeout functions uf.functionName)
        (resolvedMemory functions uf.functionName))) ∧
    (∀ cfg, manifestGet functions uf.functionName = some cfg →
      (∀ t, cfg.timeout = some t → resolvedTimeout functions uf.functionName = some t) ∧
      (∀ m, cfg.memory = some m → resolvedMemory functions uf.functionName = some m)) ∧
    ((manifestGet functions uf.functionName).bind FuncConfig.timeout = none →
      resolvedTimeout functions uf.functionName =
        ((manifestGet functions "default").map FuncConfig.timeout).getD (some 3)) ∧
    ((manifestGet functions uf.functionName).bind FuncConfig.memory = none →
      resolvedMemory functions uf.functionName =
        ((manifestGet functions "default").map FuncConfig.memory).getD (some 128)) := by
  refine ⟨?_, ?_, ?_, ?_⟩
  · unfold getFunctionResources
    rw [List.foldl_cons, List.foldl_nil]
    unfold functionResourceStep
    rw [jsLookup_jsInsert_other _ _ _ _
        (fun h => strAppend_ne_self (g := "Permission") (by decide) h.symm)]
    rw [jsLookup_jsInsert_other _ _ _ _
        (fun h => strAppend_ne_self (g := "Version") (by decide) h.symm)]
    exact jsLookup_jsInsert_self _ _ _
  · intro cfg hcfg
    constructor
    · intro t ht
      simp [resolvedTimeout, hcfg, ht]
    · intro m hm
      simp [resolvedMemory, hcfg, hm]
  · intro hnone
    cases hc : manifestGet functions uf.functionName with
    | none =>
      cases hd : manifestGet functions "default" with
      | none => simp [resolvedTimeout, hc, hd, builtinDefaultSetting]
      | some d => simp [resolvedTimeout, hc, hd]
    | some cfg =>
      rw [hc, Option.some_bind] at hnone
      cases hd : manifestGet functions "default" with
      | none => simp [resolvedTimeout, hc, hd, hnone, builtinDefaultSetting]
      | some d => simp [resolvedTimeout, hc, hd, hnone]
  · intro hnone
    cases hc : manifestGet functions uf.functionName with
    | none =>
      cases hd : manifestGet functions "default" with
      | none => simp [resolvedMemory, hc, hd, builtinDefaultSetting]
      | some d => simp [resolvedMemory, hc, hd]
    | some cfg =>
      rw [hc, Option.some_bind] at hnone
      cases hd : manifestGet functions "default" with
      | none => simp [resolvedMemory, hc, hd, hnone, builtinDefaultSetting]
      | some d => simp [resolvedMemory, hc, hd, hnone]

/-- Witness for C4 (amended): concrete checks that an explicit per-function
timeout overrides a manifest default, and that a function with no manifest
entry and no manifest default resolves to timeout 3 and memory 128. -/
theorem getFunctionResources_resolution_witness :
    (jsLookup (getFunctionResources "b" "v"
        [("default", some { timeout := some 9, memory := some 256 }),
         ("appIndex", some { timeout := some 5 })]
        [⟨"appIndex", "appIndex-v.zip"⟩]) "appIndex" =
      some (.lambdaFunction "index" "appIndex-v.zip" "b" (some 5) (some 256))) ∧
    (jsLookup (getFunctionResources "b" "v" [] [⟨"appFoo", "appFoo-v.zip"⟩]) "appFoo" =
      some (.lambdaFunction "index" "appFoo-v.zip" "b" (some 3) (some 128))) := by
  constructor
  · have h := (getFunctionResources_resolution "b" "v"
      [("default", some { timeout := some 9, memory := some 256 }),
       ("appIndex", some { timeout := some 5 })] ⟨"appIndex", "appIndex-v.zip"⟩).1
    rw [h]
    have ht : resolvedTimeout
        [("default", some { timeout := some 9, memory := some 256 }),
         ("appIndex", some { timeout := some 5 })] "appIndex" = some 5 := by decide
    have hm : resolvedMemory
        [("default", some { timeout := some 9, memory := some 256 }),
         ("appIndex", some { timeout := some 5 })] "appIndex" = some 256 := by decide
    rw [ht, hm]
  · have h := (getFunctionResources_resolution "b" "v" [] ⟨"appFoo", "appFoo-v.zip"⟩).1
    rw [h]
    have ht : resolvedTimeout [] "appFoo" = some 3 := by decide
    have hm : resolvedMemory [] "appFoo" = some 128 := by decide
    rw [ht, hm]

end Rise

namespace Rise

/-! ## Trigger Resource Builder (src/unnamed/part_002, `getTriggerResources`) -/

/-- Modelled from the spec: the object-storage (s3) trigger sub-builder
(the file `triggers/s3` is not among the sources); it emits the
fragment wiring an object-storage event source to the function. -/
def getS3Trigger (trigger funcName : String) : Doc :=
  [(funcName ++ "S3Trigger", .s3TriggerRes trigger funcName)]

/-- Modelled from the spec: the scheduled/event-bus rule sub-builder
(the file `triggers/cloudWatchEvent` is not among the sources). -/
def getCloudWatchEventTrigger (trigger funcName : String) : Doc :=
  [(funcName ++ "CloudWatchEventTrigger", .cloudWatchEventTriggerRes trigger funcName)]

/-- Modelled from the spec: the region-qualified log-group subscription
sub-builder (the file `triggers/cloudWatchLogs` is not among the
sources). -/
def getCloudWatchLogsTrigger (trigger funcName region : String) : Doc :=
  [(funcName ++ "CloudWatchLogsTrigger", .cloudWatchLogsTriggerRes trigger funcName region)]

/-- Modelled from the spec: the stream consumer sub-builder (the file
`triggers/stream` is not among the sources); it receives the execution
role for read-permission grants, whose internal wiring the claims settled
here do not depend on. -/
def getStreamTrigger (trigger funcName : String) (roleResource : Option Resource) : Doc :=
  [(funcName ++ "StreamTrigger", .streamTriggerRes trigger funcName)]

/-- Modelled from the spec: the notification-topic subscription sub-builder
(the file `triggers/sns` is not among the sources). -/
def getSNSTrigger (trigger funcName : String) : Doc :=
  [(funcName ++ "SNSTrigger", .snsTriggerRes trigger funcName)]

/-- The `switch` body of the `getTriggerResources` loop for one trigger
declaration: the five recognized kinds merge the sub-builder's fragments
into the accumulated resources (`Object.assign`); any other kind logs
`Unknown trigger <kind>.` and contributes no fragment. The second
component collects the logged error messages. -/
def processTrigger (region : String) (roleResource : Option Resource) (funcName : String)
    (acc : Doc × List String) (decl : TriggerDecl) : Doc × List String :=
  if decl.kind = "s3" then
    (jsAssign acc.1 (getS3Trigger decl.config funcName), acc.2)
  else if decl.kind = "cloudwatch_events" then
    (jsAssign acc.1 (getCloudWatchEventTrigger decl.config funcName), acc.2)
  else if decl.kind = "cloudwatch_logs" then
    (jsAssign acc.1 (getCloudWatchLogsTrigger decl.config funcName region), acc.2)
  else if decl.kind = "stream" then
    (jsAssign acc.1 (getStreamTrigger decl.config funcName roleResource), acc.2)
  else if decl.kind = "sns" then
    (jsAssign acc.1 (getSNSTrigger decl.config funcName), acc.2)
  else
    (acc.1, acc.2 ++ ["Unknown trigger " ++ decl.kind ++ "."])

/-- The trigger list used for one manifest entry: start from
`defaultSetting.triggers` and overwrite with `functions[funcName].triggers`
whenever the entry's value is non-null — even when that value declares no
`triggers` field. -/
def resolvedTriggers (defaultSetting : FuncConfig) (entryValue : Option FuncConfig) :
    Option (List TriggerDecl) :=
  match entryValue with
  | some cfg => cfg.triggers
  | none => defaultSetting.triggers

/-- The body of the outer `getTriggerResources` loop for one manifest
entry: skip the reserved key `default`; otherwise process the resolved
trigger list (a JS array is truthy even when empty, so `some []` and
`none` both contribute nothing). -/
def triggerFuncStep (region : String) (roleResource : Option Resource)
    (defaultSetting : FuncConfig) (acc : Doc × List String)
    (entry : String × Option FuncConfig) : Doc × List String :=
  if entry.1 = "default" then acc
  else
    match resolvedTriggers defaultSetting entry.2 with
    | some triggers => triggers.foldl (processTrigger region roleResource entry.1) acc
    | none => acc

/-- `getTriggerResources`: iterate every manifest entry with the loop body
above; returns the merged trigger fragments together with the logged
warnings. -/
def getTriggerResources (functions : Manifest) (region : String)
    (roleResource : Option Resource) : Doc × List String :=
  let defaultSetting := (manifestGet functions "default").getD {}
  functions.foldl (triggerFuncStep region roleResource defaultSetting) ([], [])

end Rise

namespace Rise

/-! ## C5: trigger-list fallback resolution -/

/-- C5 counterexample trigger declaration. -/
def s3Decl : TriggerDecl := ⟨"s3", "bucket-events"⟩

/-- C5 counterexample manifest: `default` declares a trigger list; function
`a` is present with a (non-null) entry that declares none. -/
def c5Manifest : Manifest :=
  [("default", some { triggers := some [s3Decl] }), ("a", some {})]

/-- C5 counterexample: function `a` declares no trigger list, so the claim
says the manifest `default` trigger list applies — but the code resolves
`a`'s triggers to nothing (the non-null entry shadows the default
unconditionally) and trigger synthesis emits no fragment at all. -/
theorem getTriggerResources_entry_shadows_default :
    resolvedTriggers { triggers := some [s3Decl] } (some {}) = none ∧
    (getTriggerResources c5Manifest "region" none).1 = [] := by
  constructor
  · decide
  · decide

/-- C5 (amended): the trigger list used for a manifest entry is the entry's
own `triggers` field whenever the entry's value is non-null — even when
that value declares no triggers, in which case nothing is emitted and the
manifest `default` list is ignored; the `default` trigger list applies
only when the entry's value is null. Concretely, on a manifest
`[default ↦ dcfg, f ↦ v]` the emitted fragments are exactly the fold of
the trigger processor over that resolved list. -/
theorem getTriggerResources_trigger_resolution (f : String) (hf : f ≠ "default")
    (dcfg : FuncConfig) (v : Option FuncConfig) (region : String)
    (role : Option Resource) :
    (∀ cfg, v = some cfg → resolvedTriggers dcfg v = cfg.triggers) ∧
    (v = none → resolvedTriggers dcfg v = dcfg.triggers) ∧
    getTriggerResources [("default", some dcfg), (f, v)] region role =
      (match resolvedTriggers dcfg v with
       | some ts => ts.foldl (processTrigger region role f) ([], [])
       | none => ([], [])) := by
  refine ⟨?_, ?_, ?_⟩
  · intro cfg hv
    rw [hv]
    rfl
  · intro hv
    rw [hv]
    rfl
  · unfold getTriggerResources
    have hd : manifestGet [("default", some dcfg), (f, v)] "default" = some dcfg := by
      simp [manifestGet, jsLookup]
    rw [hd]
    simp only [Option.getD_some, List.foldl_cons, List.foldl_nil]
    have h1 : triggerFuncStep region role dcfg ([], []) ("default", some dcfg) = ([], []) := by
      rw [triggerFuncStep]
      rw [if_pos rfl]
    rw [h1]
    rw [triggerFuncStep]
    dsimp only
    rw [if_neg hf]

/-- Witness for C5 (amended): with a `default` trigger list present, a
non-null entry that declares no triggers yields no fragments, while a
null-valued entry falls back to the default list and yields its s3
fragment. -/
theorem getTriggerResources_trigger_resolution_witness :
    resolvedTriggers { triggers := some [s3Decl] } (some {}) = ({} : FuncConfig).triggers ∧
    getTriggerResources [("default", some { triggers := some [s3Decl] }), ("a", none)]
        "region" none =
      ([("aS3Trigger", .s3TriggerRes "bucket-events" "a")], []) := by
  constructor
  · exact (getTriggerResources_trigger_resolution "a" (by decide)
      { triggers := some [s3Decl] } (some {}) "region" none).1 {} rfl
  · rw [(getTriggerResources_trigger_resolution "a" (by decide)
      { triggers := some [s3Decl] } none "region" none).2.2]
    decide

end Rise

namespace Rise

/-! ## C9: unrecognized trigger kinds are skipped, everything else unaffected -/

/-- The five trigger kinds with a `case` arm in the `switch` of
`getTriggerResources`. -/
def recognizedTriggerKinds : List String :=
  ["s3", "cloudwatch_events", "cloudwatch_logs", "stream", "sns"]

/-- Remove the trigger declarations with an unrecognized kind from one
manifest record. -/
def dropUnrecognizedTriggers (cfg : FuncConfig) : FuncConfig :=
  let keep := fun (ts : List TriggerDecl) =>
    ts.filter (fun d => decide (d.kind ∈ recognizedTriggerKinds))
  { cfg with triggers := cfg.triggers.map keep }

/-- Remove the trigger declarations with an unrecognized kind from every
manifest record. -/
def filterManifestTriggers (functions : Manifest) : Manifest :=
  functions.map (fun e => (e.1, e.2.map dropUnrecognizedTriggers))

theorem processTrigger_unrecognized (region : String) (role : Option Resource)
    (f : String) (acc : Doc × List String) (d : TriggerDecl)
    (h : d.kind ∉ recognizedTriggerKinds) :
    processTrigger region role f acc d =
      (acc.1, acc.2 ++ ["Unknown trigger " ++ d.kind ++ "."]) := by
  simp only [recognizedTriggerKinds, List.mem_cons, List.not_mem_nil, or_false,
    not_or] at h
  obtain ⟨h1, h2, h3, h4, h5⟩ := h
  unfold processTrigger
  rw [if_neg h1, if_neg h2, if_neg h3, if_neg h4, if_neg h5]

theorem processTrigger_fst_congr (region : String) (role : Option Resource) (f : String)
    {acc acc' : Doc × List String} (h : acc.1 = acc'.1) (d : TriggerDecl) :
    (processTrigger region role f acc d).1 = (processTrigger region role f acc' d).1 := by
  unfold processTrigger
  split_ifs <;> simp [h]

theorem foldTriggers_fst_filter (region : String) (role : Option Resource) (f : String) :
    ∀ (ts : List TriggerDecl) (acc acc' : Doc × List String), acc.1 = acc'.1 →
      (ts.foldl (processTrigger region role f) acc).1 =
      ((ts.filter (fun d => decide (d.kind ∈ recognizedTriggerKinds))).foldl
        (processTrigger region role f) acc').1 := by
  intro ts
  induction ts with
  | nil =>
    intro acc acc' h
    simpa using h
  | cons d rest ih =>
    intro acc acc' h
    by_cases hd : d.kind ∈ recognizedTriggerKinds
    · rw [List.foldl_cons, List.filter_cons_of_pos (by simpa using hd), List.foldl_cons]
      exact ih _ _ (processTrigger_fst_congr region role f h d)
    · rw [List.foldl_cons, List.filter_cons_of_neg (by simpa using hd)]
      refine ih _ _ ?_
      rw [processTrigger_unrecognized region role f acc d hd]
      exact h

theorem triggerFold_fst_filter (region : String) (role : Option Resource) (ds : FuncConfig) :
    ∀ (fs : List (String × Option FuncConfig)) (acc acc' : Doc × List String),
      acc.1 = acc'.1 →
      (fs.foldl (triggerFuncStep region role ds) acc).1 =
      ((fs.map (fun e => (e.1, e.2.map dropUnrecognizedTriggers))).foldl
        (triggerFuncStep region role (dropUnrecognizedTriggers ds)) acc').1 := by
  intro fs
  induction fs with
  | nil =>
    intro acc acc' h
    simpa using h
  | cons e rest ih =>
    intro acc acc' h
    rw [List.map_cons, List.foldl_cons, List.foldl_cons]
    apply ih
    unfold triggerFuncStep
    dsimp only
    by_cases he : e.1 = "default"
    · rw [if_pos he, if_pos he]
      exact h
    · rw [if_neg he, if_neg he]
      have hres : resolvedTriggers (dropUnrecognizedTriggers ds)
          (e.2.map dropUnrecognizedTriggers) =
          (resolvedTriggers ds e.2).map
            (fun ts => ts.filter (fun d => decide (d.kind ∈ recognizedTriggerKinds))) := by
        cases e.2 <;> rfl
      rw [hres]
      cases hv : resolvedTriggers ds e.2 with
      | none => simpa using h
      | some ts => exact foldTriggers_fst_filter region role e.1 ts acc acc' h

theorem manifestGet_filterManifestTriggers (functions : Manifest) (k : String) :
    manifestGet (filterManifestTriggers functions) k =
      (manifestGet functions k).map dropUnrecognizedTriggers := by
  unfold filterManifestTriggers
  induction functions with
  | nil => rfl
  | cons p rest ih =>
    rw [List.map_cons]
    unfold manifestGet jsLookup
    dsimp only
    by_cases hp : p.1 = k
    · rw [if_pos hp, if_pos hp]
      cases p.2 <;> rfl
    · rw [if_neg hp, if_neg hp]
      exact ih

/-- C9: an unrecognized trigger kind is handled without aborting — the
`switch` falls to the default arm, which logs `Unknown trigger <kind>.`
and contributes no fragment — and dropping all unrecognized declarations
from the manifest leaves the emitted fragment set exactly unchanged (the
fragments of recognized triggers and of other functions are unaffected). -/
theorem getTriggerResources_skip_unrecognized (functions : Manifest) (region : String)
    (role : Option Resource) :
    (∀ (acc : Doc × List String) (f : String) (d : TriggerDecl),
       d.kind ∉ recognizedTriggerKinds →
       processTrigger region role f acc d =
         (acc.1, acc.2 ++ ["Unknown trigger " ++ d.kind ++ "."])) ∧
    (getTriggerResources functions region role).1 =
      (getTriggerResources (filterManifestTriggers functions) region role).1 := by
  constructor
  · intro acc f d hd
    exact processTrigger_unrecognized region role f acc d hd
  · unfold getTriggerResources
    rw [manifestGet_filterManifestTriggers]
    cases hd : manifestGet functions "default" with
    | none =>
      exact triggerFold_fst_filter region role {} functions ([], []) ([], []) rfl
    | some dcfg =>
      exact triggerFold_fst_filter region role dcfg functions ([], []) ([], []) rfl

/-- C9 witness manifest: one function with an unrecognized `webhook`
trigger ahead of a recognized s3 trigger. -/
def c9Manifest : Manifest :=
  [("a", some { triggers := some [⟨"webhook", "cfg"⟩, s3Decl] })]

/-- Witness for C9 at a concrete manifest: the unrecognized declaration
only appends a warning, and dropping it does not change the emitted
fragments. -/
theorem getTriggerResources_skip_unrecognized_witness :
    processTrigger "region" none "a" ([], []) ⟨"webhook", "cfg"⟩ =
      ([], ["Unknown trigger webhook."]) ∧
    (getTriggerResources c9Manifest "region" none).1 =
      (getTriggerResources (filterManifestTriggers c9Manifest) "region" none).1 :=
  ⟨(getTriggerResources_skip_unrecognized c9Manifest "region" none).1 ([], []) "a"
      ⟨"webhook", "cfg"⟩ (by decide),
   (getTriggerResources_skip_unrecognized c9Manifest "region" none).2⟩

end Rise

namespace Rise

/-! ## Ping step (src/unnamed/part_002, `pingFunctions` / `pingPromise`) -/

/-- Outcome of one lambda invocation: a resolved StatusCode/Payload pair,
or a rejection. -/
inductive InvokeResult where
  | ok (statusCode : Nat) (payload : String)
  | failed (errMsg : String)
deriving DecidableEq, Repr

/-- The exact fixed health-check response body the ping step requires. -/
def pingOkPayload : String := "\x7b\"test\":\"ok\"\x7d"

/-- `pingPromise`: invoke the function; the ping succeeds exactly when the
invocation resolves with StatusCode 200 and Payload equal to the fixed
body; an invocation error or any other status/body fails it. -/
def pingPromise (invoke : String → InvokeResult) (functionName : String) : Bool :=
  match invoke functionName with
  | .ok statusCode payload => statusCode = 200 ∧ payload = pingOkPayload
  | .failed _ => false

/-- The names collected by the `pingFunctions` loop: every manifest key
except those whose (truthy) record carries a truthy `bare` marker. -/
def functionNamesToPing (functions : Manifest) : List String :=
  (functions.filter (fun e =>
    !(match e.2 with
      | some cfg => cfg.bare
      | none => false))).map Prod.fst

/-- The invocation list built by the nested loops of `pingPromiseAll`:
every deployed function name that starts with
`<stackName>-<uploadedFunctionName>` for some collected name (once per
matching name, as in the source). -/
def pingTargets (stackName : String) (uploadedFunctionNames deployed : List String) :
    List String :=
  deployed.flatMap (fun f =>
    uploadedFunctionNames.filterMap (fun u =>
      if strStartsWith f (stackName ++ "-" ++ u) then some f else none))

/-- `pingPromiseAll` via `Promise.all`: resolves exactly when every ping in
the list succeeds. -/
def pingPromiseAll (invoke : String → InvokeResult) (stackName : String)
    (uploadedFunctionNames deployed : List String) : Bool :=
  (pingTargets stackName uploadedFunctionNames deployed).all (pingPromise invoke)

/-- `pingFunctions`: collect the non-bare manifest names, ping every
matching deployed function, and resolve with the session in state `PINGED`
exactly when all pings succeed; otherwise the step rejects with the fixed
deploy-integrity error. -/
def pingFunctions (invoke : String → InvokeResult) (stackName : String)
    (functions : Manifest) (deployed : List String) : PromiseResult Session :=
  if pingPromiseAll invoke stackName (functionNamesToPing functions) deployed then
    .resolved ⟨"PINGED"⟩
  else
    .rejected "functions are not deployed properly"

theorem eq_of_mem_nodup_keys {β : Type} {m : List (String × β)}
    (h : (m.map Prod.fst).Nodup) {p q : String × β}
    (hp : p ∈ m) (hq : q ∈ m) (hk : p.1 = q.1) : p = q := by
  induction m with
  | nil => cases hp
  | cons e rest ih =>
    rw [List.map_cons, List.nodup_cons] at h
    rcases List.mem_cons.mp hp with rfl | hp' <;> rcases List.mem_cons.mp hq with rfl | hq'
    · rfl
    · exact absurd (hk ▸ List.mem_map_of_mem Prod.fst hq') h.1
    · exact absurd (hk ▸ List.mem_map_of_mem Prod.fst hp') (fun hc => h.1 hc)
    · exact ih h.2 hp' hq'

end Rise

namespace Rise

/-- C8: the ping step invokes exactly the deployed functions whose name
starts with `<stackName>-<name>` for some collected (non-bare) manifest
name; bare-marked entries are excluded from the collected names; the step
resolves in state `PINGED` if and only if every such invocation resolves
with status 200 and the exact fixed body; otherwise it rejects with the
fixed deploy-integrity error. -/
theorem pingFunctions_resolves_iff (invoke : String → InvokeResult) (stackName : String)
    (functions : Manifest) (deployed : List String)
    (hnodup : (functions.map Prod.fst).Nodup) :
    (∀ f, f ∈ pingTargets stackName (functionNamesToPing functions) deployed ↔
      (f ∈ deployed ∧ ∃ u ∈ functionNamesToPing functions,
        strStartsWith f (stackName ++ "-" ++ u) = true)) ∧
    (∀ name cfg, (name, some cfg) ∈ functions → cfg.bare = true →
      name ∉ functionNamesToPing functions) ∧
    (pingFunctions invoke stackName functions deployed = .resolved ⟨"PINGED"⟩ ↔
      ∀ f ∈ pingTargets stackName (functionNamesToPing functions) deployed,
        invoke f = .ok 200 pingOkPayload) ∧
    (pingFunctions invoke stackName functions deployed ≠ .resolved ⟨"PINGED"⟩ →
      pingFunctions invoke stackName functions deployed =
        .rejected "functions are not deployed properly") := by
  refine ⟨?_, ?_, ?_, ?_⟩
  · intro f
    unfold pingTargets
    rw [List.mem_flatMap]
    constructor
    · rintro ⟨g, hg, hf⟩
      rw [List.mem_filterMap] at hf
      obtain ⟨u, hu, hif⟩ := hf
      by_cases hs : strStartsWith g (stackName ++ "-" ++ u) = true
      · rw [if_pos hs] at hif
        obtain rfl := Option.some.inj hif
        exact ⟨hg, u, hu, hs⟩
      · rw [if_neg hs] at hif
        cases hif
    · rintro ⟨hf, u, hu, hs⟩
      exact ⟨f, hf, List.mem_filterMap.mpr ⟨u, hu, by rw [if_pos hs]⟩⟩
  · intro name cfg hin hbare hmem
    unfold functionNamesToPing at hmem
    rw [List.mem_map] at hmem
    obtain ⟨e, he, hname⟩ := hmem
    rw [List.mem_filter] at he
    have heq : e = (name, some cfg) := eq_of_mem_nodup_keys hnodup he.1 hin hname
    rw [heq] at he
    have hb := he.2
    dsimp only at hb
    rw [hbare] at hb
    simp at hb
  · unfold pingFunctions
    by_cases hall : pingPromiseAll invoke stackName (functionNamesToPing functions) deployed = true
    · rw [if_pos hall]
      constructor
      · intro _ f hf
        unfold pingPromiseAll at hall
        rw [List.all_eq_true] at hall
        have hp := hall f hf
        unfold pingPromise at hp
        cases hi : invoke f with
        | ok statusCode payload =>
          rw [hi] at hp
          simp only [decide_eq_true_eq] at hp
          rw [hp.1, hp.2]
        | failed e =>
          rw [hi] at hp
          cases hp
      · intro _
        rfl
    · rw [if_neg hall]
      constructor
      · intro h
        exact PromiseResult.noConfusion h
      · intro hforall
        exfalso
        apply hall
        unfold pingPromiseAll
        rw [List.all_eq_true]
        intro f hf
        unfold pingPromise
        rw [hforall f hf]
        decide
  · unfold pingFunctions
    by_cases hall : pingPromiseAll invoke stackName (functionNamesToPing functions) deployed = true
    · rw [if_pos hall]
      intro h
      exact absurd rfl h
    · rw [if_neg hall]
      intro _
      rfl

/-- C8 witness invocation environment: only the deployed function
`st-appIndex-X1` answers the health check correctly. -/
def c8Invoke : String → InvokeResult := fun f =>
  if f = "st-appIndex-X1" then .ok 200 pingOkPayload else .failed "connection refused"

/-- Witness for C8 at a concrete deployment: the bare function is not
collected, the unrelated deployed function is not pinged, and the step
resolves in state `PINGED`. -/
theorem pingFunctions_resolves_iff_witness :
    pingFunctions c8Invoke "st"
      [("appIndex", some {}), ("worker", some { bare := true })]
      ["st-appIndex-X1", "unrelated"] = .resolved ⟨"PINGED"⟩ :=
  (pingFunctions_resolves_iff c8Invoke "st"
      [("appIndex", some {}), ("worker", some { bare := true })]
      ["st-appIndex-X1", "unrelated"] (by decide)).2.2.1.mpr (by decide)

end Rise

namespace Rise

/-! ## Route Tree Builder (src/unnamed/part_002, `getAPIResources`,
`createAPIResource`, `createAPIMethod`) -/

/-- JS `s.toUpperCase()` over the characters. -/
def strToUpper (s : String) : String :=
  String.mk (s.data.map Char.toUpper)

/-- JS `s[s.length - 1] === c`-style suffix test, via character lists. -/
def strEndsWith (s p : String) : Bool :=
  p.data.isSuffixOf s.data

/-- JS `s.substr(0, n)`: the first `n` characters (capped at the
length). -/
def strTake (s : String) (n : Nat) : String :=
  String.mk (s.data.take n)

/-- JS `s.substr(n)`: drop the first `n` characters. -/
def strDrop (s : String) (n : Nat) : String :=
  String.mk (s.data.drop n)

/-- JS `s.split('/')` for the single-character separator: always at least
one part; an empty string yields `[""]`. -/
def splitOnSlash (s : String) : List String :=
  (s.data.foldr (fun c (acc : List (List Char)) =>
    if c = '/' then [] :: acc
    else match acc with
      | [] => [[c]]
      | h :: t => (c :: h) :: t) [[]]).map String.mk

/-- Modelled from the spec: the `titlecase` string helper
(src/utils/stringHelper is not among the sources): capitalize the first
character of the token. -/
def titlecase (s : String) : String :=
  match s.data with
  | [] => ""
  | c :: cs => String.mk (c.toUpper :: cs)

/-- `token.replace` over the brace-character class: strip every brace
character from the token. -/
def stripBraces (token : String) : String :=
  String.mk (token.data.filter (fun c => !(c = '\x7b' ∨ c = '\x7d')))

/-- The path normalization at the top of the `getAPIResources` loop: strip
one leading separator, then — testing the trimmed string but cutting at
`p.length - 1` of the ORIGINAL string, exactly as the source does — strip
a trailing separator (so when a leading separator was stripped, the cut is
past the end and the trailing separator survives). -/
def trimPath (p : String) : String :=
  let t1 := if strStartsWith p "/" then strDrop p 1 else p
  if strEndsWith t1 "/" then strTake t1 (p.length - 1) else t1

/-- The binding of one HTTP method on a route: target function and the
optional per-method CORS flag (both under `x-rise` in the source). -/
structure MethodBinding where
  function : String
  cors : Option Bool := none
deriving DecidableEq, Repr

/-- The methods declared on one path: HTTP-method name → binding. -/
abbrev MethodMap := List (String × MethodBinding)

/-- The route-map-wide default settings record
(`routes['x-rise'].default`). -/
structure DefaultSetting where
  cors : Option Bool := none
deriving DecidableEq, Repr

/-- The route map: URL path → method map, plus the optional `x-rise`
default record. -/
structure Routes where
  paths : List (String × MethodMap)
  xRiseDefault : Option DefaultSetting := none
deriving DecidableEq, Repr

/-- One node of the path tree built during synthesis: synthetic resource
name, root flag, children keyed by path token. -/
inductive PathNode where
  | mk (name : String) (isRoot : Bool) (children : List (String × PathNode))

/-- The node's synthetic resource name. -/
def PathNode.name : PathNode → String
  | .mk n _ _ => n

/-- Whether the node is the distinguished root. -/
def PathNode.isRoot : PathNode → Bool
  | .mk _ r _ => r

/-- The node's children, keyed by path token. -/
def PathNode.children : PathNode → List (String × PathNode)
  | .mk _ _ c => c

/-- The owning-resource reference spliced into method and preflight
fragments: the distinguished root or a `Ref` to the node's name. -/
def nodeRef (res : PathNode) : ParentRef :=
  if res.isRoot then .root else .ref res.name

/-- `createAPIResource`: one fragment attaching the new path node to its
parent (the root parent is the distinguished structural reference). -/
def createAPIResource (parent : PathNode) (name p : String) : Doc :=
  [(name, .apiResource p (nodeRef parent))]

/-- The per-method CORS resolution in `createAPIMethod`: the explicit
per-method flag when non-null, else the default record's flag (absent
means falsy). -/
def resolvedCors (defaultSetting : DefaultSetting) (b : MethodBinding) : Bool :=
  match b.cors with
  | some c => c
  | none => defaultSetting.cors.getD false

/-- The body of the `createAPIMethod` loop for one declared method: insert
the method fragment under `<node name><METHOD>`, and record the
uppercased method name when its CORS resolves true. -/
def apiMethodStep (res : PathNode) (defaultSetting : DefaultSetting)
    (acc : Doc × List String) (m : String × MethodBinding) : Doc × List String :=
  (jsInsert acc.1 (res.name ++ strToUpper m.1)
    (.apiMethod (strToUpper m.1) m.2.function (nodeRef res)),
   if resolvedCors defaultSetting m.2 then acc.2 ++ [strToUpper m.1] else acc.2)

/-- `createAPIMethod`: emit one method fragment per declared method; when
the collected CORS-method list is non-empty, append `OPTIONS` and emit one
combined preflight fragment under `<node name>OPTIONS`. -/
def createAPIMethod (res : PathNode) (defaultSetting : DefaultSetting)
    (methods : MethodMap) : Doc :=
  let step := methods.foldl (apiMethodStep res defaultSetting) ([], [])
  if step.2.length > 0 then
    jsInsert step.1 (res.name ++ "OPTIONS")
      (.apiCors (String.intercalate "," (step.2 ++ ["OPTIONS"])) (nodeRef res))
  else
    step.1

/-- The inner token walk of `getAPIResources`: thread the current parent
node and the result document along the token list; an empty token emits
the methods on the current parent and moves on; otherwise look up or
create the child (emitting its attachment fragment on first sight), emit
the methods on the child when the token is last, and descend. -/
def walkTokens (defaultSetting : DefaultSetting) (methods : MethodMap) :
    List String → PathNode → Doc → PathNode × Doc
  | [], parent, result => (parent, result)
  | token :: rest, parent, result =>
    if token = "" then
      walkTokens defaultSetting methods rest parent
        (jsAssign result (createAPIMethod parent defaultSetting methods))
    else
      let name := parent.name ++ titlecase (stripBraces token)
      match jsLookup parent.children token with
      | some child =>
        let result1 := if rest.isEmpty then
            jsAssign result (createAPIMethod child defaultSetting methods)
          else result
        let next := walkTokens defaultSetting methods rest child result1
        (PathNode.mk parent.name parent.isRoot (jsInsert parent.children token next.1),
         next.2)
      | none =>
        let child := PathNode.mk name false []
        let result1 := jsAssign result (createAPIResource parent name token)
        let result2 := if rest.isEmpty then
            jsAssign result1 (createAPIMethod child defaultSetting methods)
          else result1
        let next := walkTokens defaultSetting methods rest child result2
        (PathNode.mk parent.name parent.isRoot (jsInsert parent.children token next.1),
         next.2)

/-- `getAPIResources`: normalize and split every path of the route map, in
map order, walking the shared path tree from the distinguished root and
accumulating the result document. -/
def getAPIResources (routes : Routes) : Doc :=
  let defaultSetting := routes.xRiseDefault.getD {}
  (routes.paths.foldl (fun (acc : PathNode × Doc) pm =>
    walkTokens defaultSetting pm.2 (splitOnSlash (trimPath pm.1)) acc.1 acc.2)
    (PathNode.mk "RiseAPIResource" true [], [])).2

/-- The uppercased names of the methods whose CORS resolves true, in
declaration order: the list the preflight fragment joins with `OPTIONS`. -/
def corsListOf (defaultSetting : DefaultSetting) (methods : MethodMap) : List String :=
  (methods.filter (fun m => resolvedCors defaultSetting m.2)).map (fun m => strToUpper m.1)

end Rise

namespace Rise

/-! ### Lemmas about document keys and the method fold -/

theorem strData_ext {s t : String} (h : s.data = t.data) : s = t := by
  cases s
  cases t
  cases h
  rfl

theorem strAppend_left_cancel {a b c : String} (h : a ++ b = a ++ c) : b = c := by
  have hd := congrArg String.data h
  rw [String.data_append, String.data_append] at hd
  exact strData_ext (List.append_cancel_left hd)

theorem jsInsert_nodupKeys {β : Type} (m : List (String × β)) (k : String) (v : β)
    (h : (m.map Prod.fst).Nodup) : ((jsInsert m k v).map Prod.fst).Nodup := by
  unfold jsInsert
  split
  · have hkeys : (m.map (fun p => if p.1 = k then (k, v) else p)).map Prod.fst =
        m.map Prod.fst := by
      rw [List.map_map]
      apply List.map_congr_left
      intro p _
      by_cases hp : p.1 = k
      · simp [hp]
      · simp [hp]
    rw [hkeys]
    exact h
  · rw [List.map_append]
    rename_i hany
    rw [List.any_eq_true] at hany
    push_neg at hany
    simp only [List.map_cons, List.map_nil]
    rw [List.nodup_append]
    refine ⟨h, List.nodup_singleton k, ?_⟩
    intro a ha hb
    rw [List.mem_singleton] at hb
    subst hb
    rw [List.mem_map] at ha
    obtain ⟨p, hp, hpa⟩ := ha
    exact absurd (by simpa using hpa) (by simpa using hany p hp)

theorem jsLookup_eq_of_mem_nodupKeys {β : Type} {m : List (String × β)} {k : String} {v : β}
    (h : (m.map Prod.fst).Nodup) (hmem : (k, v) ∈ m) : jsLookup m k = some v := by
  induction m with
  | nil => cases hmem
  | cons p rest ih =>
    rw [List.map_cons, List.nodup_cons] at h
    rcases List.mem_cons.mp hmem with heq | hm
    · rw [← heq, jsLookup, if_pos rfl]
    · rw [jsLookup]
      by_cases hp : p.1 = k
      · exact absurd (hp ▸ List.mem_map_of_mem Prod.fst hm) h.1
      · rw [if_neg hp]
        exact ih h.2 hm

theorem mem_of_jsLookup_eq_some {β : Type} {m : List (String × β)} {k : String} {v : β}
    (h : jsLookup m k = some v) : (k, v) ∈ m := by
  induction m with
  | nil => cases h
  | cons p rest ih =>
    obtain ⟨pk, pv⟩ := p
    rw [jsLookup] at h
    by_cases hp : pk = k
    · rw [if_pos hp] at h
      obtain rfl := Option.some.inj h
      exact List.mem_cons.mpr (Or.inl (by rw [hp]))
    · rw [if_neg hp] at h
      exact List.mem_cons.mpr (Or.inr (ih h))

theorem apiMethodStep_eq (res : PathNode) (ds : DefaultSetting) (doc : Doc)
    (l : List String) (m : String × MethodBinding) :
    apiMethodStep res ds (doc, l) m =
      (jsInsert doc (res.name ++ strToUpper m.1)
        (.apiMethod (strToUpper m.1) m.2.function (nodeRef res)),
       if resolvedCors ds m.2 then l ++ [strToUpper m.1] else l) := rfl

theorem apiMethodFold_snd (res : PathNode) (ds : DefaultSetting) :
    ∀ (methods : MethodMap) (doc : Doc) (l : List String),
      (methods.foldl (apiMethodStep res ds) (doc, l)).2 = l ++ corsListOf ds methods := by
  intro methods
  induction methods with
  | nil =>
    intro doc l
    simp [corsListOf]
  | cons m rest ih =>
    intro doc l
    rw [List.foldl_cons, apiMethodStep_eq, ih]
    by_cases hc : resolvedCors ds m.2 = true
    · simp [corsListOf, List.filter_cons, hc]
    · simp only [Bool.not_eq_true] at hc
      simp [corsListOf, List.filter_cons, hc]

theorem apiMethodFold_fst_values (res : PathNode) (ds : DefaultSetting) :
    ∀ (methods : MethodMap) (doc : Doc) (l : List String) (q : String × Resource),
      q ∈ (methods.foldl (apiMethodStep res ds) (doc, l)).1 →
      (∃ u fn, q.2 = .apiMethod u fn (nodeRef res)) ∨ q ∈ doc := by
  intro methods
  induction methods with
  | nil =>
    intro doc l q hq
    exact Or.inr hq
  | cons m rest ih =>
    intro doc l q hq
    rw [List.foldl_cons, apiMethodStep_eq] at hq
    rcases ih _ _ q hq with h1 | h1
    · exact Or.inl h1
    · rcases mem_jsInsert h1 with h2 | h2
      · exact Or.inl ⟨strToUpper m.1, m.2.function, by rw [h2]⟩
      · exact Or.inr h2

theorem apiMethodFold_fst_lookup_other (res : PathNode) (ds : DefaultSetting) (k : String) :
    ∀ (methods : MethodMap) (doc : Doc) (l : List String),
      (∀ m ∈ methods, res.name ++ strToUpper m.1 ≠ k) →
      jsLookup (methods.foldl (apiMethodStep res ds) (doc, l)).1 k = jsLookup doc k := by
  intro methods
  induction methods with
  | nil =>
    intro doc l _
    rfl
  | cons m rest ih =>
    intro doc l hk
    rw [List.foldl_cons, apiMethodStep_eq]
    rw [ih _ _ (fun m' hm' => hk m' (List.mem_cons_of_mem m hm'))]
    exact jsLookup_jsInsert_other _ _ _ _
      (fun hh => hk m (List.mem_cons_self m rest) hh.symm)

theorem apiMethodFold_fst_nodupKeys (res : PathNode) (ds : DefaultSetting) :
    ∀ (methods : MethodMap) (doc : Doc) (l : List String),
      (doc.map Prod.fst).Nodup →
      ((methods.foldl (apiMethodStep res ds) (doc, l)).1.map Prod.fst).Nodup := by
  intro methods
  induction methods with
  | nil =>
    intro doc l h
    exact h
  | cons m rest ih =>
    intro doc l h
    rw [List.foldl_cons, apiMethodStep_eq]
    exact ih _ _ (jsInsert_nodupKeys _ _ _ h)

end Rise

namespace Rise

theorem createAPIMethod_eq (res : PathNode) (ds : DefaultSetting) (methods : MethodMap) :
    createAPIMethod res ds methods =
      if corsListOf ds methods = [] then
        (methods.foldl (apiMethodStep res ds) ([], [])).1
      else
        jsInsert (methods.foldl (apiMethodStep res ds) ([], [])).1 (res.name ++ "OPTIONS")
          (.apiCors (String.intercalate "," (corsListOf ds methods ++ ["OPTIONS"]))
            (nodeRef res)) := by
  unfold createAPIMethod
  dsimp only
  rw [apiMethodFold_snd res ds methods [] [], List.nil_append]
  by_cases h : corsListOf ds methods = []
  · rw [h]
    simp
  · rw [if_neg h, if_pos (List.length_pos.mpr h)]

/-- C7: the node's preflight fragment — an `apiCors` fragment under
`<node name>OPTIONS` listing the CORS-enabled methods in declaration order
followed by `OPTIONS` — is present if and only if at least one declared
method resolves CORS to true; and when no method resolves CORS true and no
declared method uppercases to `OPTIONS`, nothing at all sits under that
name. -/
theorem createAPIMethod_preflight (res : PathNode) (ds : DefaultSetting)
    (methods : MethodMap) :
    (jsLookup (createAPIMethod res ds methods) (res.name ++ "OPTIONS") =
        some (.apiCors (String.intercalate "," (corsListOf ds methods ++ ["OPTIONS"]))
          (nodeRef res)) ↔
      corsListOf ds methods ≠ []) ∧
    ((corsListOf ds methods = [] ∧ ∀ m ∈ methods, strToUpper m.1 ≠ "OPTIONS") →
      jsLookup (createAPIMethod res ds methods) (res.name ++ "OPTIONS") = none) := by
  constructor
  · constructor
    · intro hlook hnil
      rw [createAPIMethod_eq, if_pos hnil] at hlook
      have hmem := mem_of_jsLookup_eq_some hlook
      rcases apiMethodFold_fst_values res ds methods [] [] _ hmem with ⟨u, fn, hv⟩ | hv
      · exact Resource.noConfusion hv
      · cases hv
    · intro hne
      rw [createAPIMethod_eq, if_neg hne]
      exact jsLookup_jsInsert_self _ _ _
  · rintro ⟨hnil, hopt⟩
    rw [createAPIMethod_eq, if_pos hnil]
    rw [apiMethodFold_fst_lookup_other res ds _ methods [] []]
    · rfl
    · intro m hm heq
      exact hopt m hm (strAppend_left_cancel heq)

/-- C7 witness node and method map: GET with CORS on, POST with CORS off,
no default CORS. -/
def c7Node : PathNode := .mk "RiseAPIResourceFoo" false []

/-- C7 witness methods. -/
def c7Methods : MethodMap :=
  [("get", { function := "f", cors := some true }),
   ("post", { function := "g", cors := some false })]

/-- Witness for C7: on the concrete node exactly one fragment sits under
the preflight name and it lists exactly `GET,OPTIONS`. -/
theorem createAPIMethod_preflight_witness :
    jsLookup (createAPIMethod c7Node {} c7Methods) "RiseAPIResourceFooOPTIONS" =
      some (.apiCors "GET,OPTIONS" (.ref "RiseAPIResourceFoo")) ∧
    ((createAPIMethod c7Node {} c7Methods).filter
      (fun q => decide (q.1 = "RiseAPIResourceFooOPTIONS"))).length = 1 := by
  constructor
  · have h := (createAPIMethod_preflight c7Node {} c7Methods).1.mpr (by decide)
    exact h.trans (by decide)
  · decide

/-- C10: when a node declares its own `options` HTTP method while at least
one method on the node resolves CORS to true, the preflight fragment is
written under the same resource name `<node name>OPTIONS` as the declared
OPTIONS method fragment and, being inserted later, silently replaces that
binding: the returned set maps the name to the combined preflight fragment
and retains no OPTIONS method binding. -/
theorem createAPIMethod_options_replaced (res : PathNode) (ds : DefaultSetting)
    (methods : MethodMap)
    (hopt : ∃ m ∈ methods, strToUpper m.1 = "OPTIONS")
    (hcors : corsListOf ds methods ≠ []) :
    (∀ m ∈ methods, strToUpper m.1 = "OPTIONS" →
      res.name ++ strToUpper m.1 = res.name ++ "OPTIONS") ∧
    jsLookup (createAPIMethod res ds methods) (res.name ++ "OPTIONS") =
      some (.apiCors (String.intercalate "," (corsListOf ds methods ++ ["OPTIONS"]))
        (nodeRef res)) ∧
    (∀ v, (res.name ++ "OPTIONS", v) ∈ createAPIMethod res ds methods →
      v = .apiCors (String.intercalate "," (corsListOf ds methods ++ ["OPTIONS"]))
        (nodeRef res)) ∧
    (∀ u fn rid, (res.name ++ "OPTIONS", Resource.apiMethod u fn rid) ∉
      createAPIMethod res ds methods) := by
  have hnodup : ((createAPIMethod res ds methods).map Prod.fst).Nodup := by
    rw [createAPIMethod_eq]
    split
    · exact apiMethodFold_fst_nodupKeys res ds methods [] [] (by simp)
    · exact jsInsert_nodupKeys _ _ _ (apiMethodFold_fst_nodupKeys res ds methods [] [] (by simp))
  have hlook : jsLookup (createAPIMethod res ds methods) (res.name ++ "OPTIONS") =
      some (.apiCors (String.intercalate "," (corsListOf ds methods ++ ["OPTIONS"]))
        (nodeRef res)) := by
    rw [createAPIMethod_eq, if_neg hcors]
    exact jsLookup_jsInsert_self _ _ _
  refine ⟨fun m _ hm => by rw [hm], hlook, ?_, ?_⟩
  · intro v hv
    have hv' := jsLookup_eq_of_mem_nodupKeys hnodup hv
    rw [hlook] at hv'
    exact (Option.some.inj hv').symm
  · intro u fn rid hmem
    have hv := jsLookup_eq_of_mem_nodupKeys hnodup hmem
    rw [hlook] at hv
    exact Resource.noConfusion (Option.some.inj hv)

/-- C10 witness methods: a declared `options` method (CORS off) next to a
CORS-enabled GET. -/
def c10Methods : MethodMap :=
  [("options", { function := "h", cors := some false }),
   ("get", { function := "f", cors := some true })]

/-- Witness for C10 on a concrete node: the preflight fragment occupies
the declared OPTIONS name and no OPTIONS method binding survives. -/
theorem createAPIMethod_options_replaced_witness :
    jsLookup (createAPIMethod (.mk "RiseAPIResourceBar" false []) {} c10Methods)
        ("RiseAPIResourceBar" ++ "OPTIONS") =
      some (.apiCors "GET,OPTIONS" (.ref "RiseAPIResourceBar")) ∧
    ("RiseAPIResourceBar" ++ "OPTIONS",
      Resource.apiMethod "OPTIONS" "h" (.ref "RiseAPIResourceBar")) ∉
      createAPIMethod (.mk "RiseAPIResourceBar" false []) {} c10Methods := by
  have thm := createAPIMethod_options_replaced (.mk "RiseAPIResourceBar" false []) {}
    c10Methods (by decide) (by decide)
  exact ⟨thm.2.1.trans (by decide),
    thm.2.2.2 "OPTIONS" "h" (.ref "RiseAPIResourceBar")⟩

end Rise

namespace Rise

/-! ## C6: order-independence of route-tree synthesis

The walk is characterized by the pure per-path write sequence below: the
fragments a path writes into the result document, in order, including the
node-attachment fragments that the walk skips re-inserting when the node
already exists (their value is structural, so the earlier writer wrote the
same pair). -/

/-- The fragments one normalized token list writes, in order, as a pure
function of the tokens, the current node name/root flag, the default
settings and the path's method map. -/
def pathWrites (ds : DefaultSetting) (methods : MethodMap) :
    List String → String → Bool → List (String × Resource)
  | [], _, _ => []
  | token :: rest, name, isRoot =>
    if token = "" then
      createAPIMethod (.mk name isRoot []) ds methods ++
        pathWrites ds methods rest name isRoot
    else
      let cname := name ++ titlecase (stripBraces token)
      createAPIResource (.mk name isRoot []) cname token ++
        ((if rest.isEmpty then createAPIMethod (.mk cname false []) ds methods else []) ++
          pathWrites ds methods rest cname false)

theorem createAPIMethod_stub (res : PathNode) (ds : DefaultSetting) (methods : MethodMap) :
    createAPIMethod res ds methods =
      createAPIMethod (.mk res.name res.isRoot []) ds methods := by
  cases res
  rfl

theorem createAPIResource_stub (parent : PathNode) (name p : String) :
    createAPIResource parent name p =
      createAPIResource (.mk parent.name parent.isRoot []) name p := by
  cases parent
  rfl

theorem isSome_jsLookup_iff_mem {β : Type} {m : List (String × β)} {k : String} :
    (jsLookup m k).isSome = true ↔ ∃ v, (k, v) ∈ m := by
  induction m with
  | nil =>
    constructor
    · intro h
      cases h
    · rintro ⟨v, hv⟩
      cases hv
  | cons p rest ih =>
    obtain ⟨pk, pv⟩ := p
    rw [jsLookup]
    by_cases hp : pk = k
    · rw [if_pos hp]
      constructor
      · intro _
        refine ⟨pv, ?_⟩
        rw [← hp]
        exact List.mem_cons_self _ _
      · intro _
        rfl
    · rw [if_neg hp]
      constructor
      · intro h
        obtain ⟨v, hv⟩ := ih.mp h
        exact ⟨v, List.mem_cons_of_mem _ hv⟩
      · rintro ⟨v, hv⟩
        rcases List.mem_cons.mp hv with heq | hm
        · exact absurd (congrArg Prod.fst heq).symm hp
        · exact ih.mpr ⟨v, hm⟩

end Rise

namespace Rise

theorem isSome_jsLookup_jsInsert {β : Type} (m : List (String × β)) (k k' : String) (v : β) :
    (jsLookup (jsInsert m k v) k').isSome = true ↔
      k' = k ∨ (jsLookup m k').isSome = true := by
  by_cases hk : k' = k
  · subst hk
    rw [jsLookup_jsInsert_self]
    simp
  · rw [jsLookup_jsInsert_other m k k' v hk]
    simp [hk]

theorem isSome_jsLookup_append {β : Type} (m1 m2 : List (String × β)) (k : String) :
    (jsLookup (m1 ++ m2) k).isSome = true ↔
      (jsLookup m1 k).isSome = true ∨ (jsLookup m2 k).isSome = true := by
  rw [jsLookup_append]
  cases h : jsLookup m1 k with
  | none => simp
  | some v => simp

theorem isSome_jsLookup_jsAssign {β : Type} :
    ∀ (extra m : List (String × β)) (k : String),
      (jsLookup (jsAssign m extra) k).isSome = true ↔
        (jsLookup extra k).isSome = true ∨ (jsLookup m k).isSome = true := by
  intro extra
  induction extra with
  | nil =>
    intro m k
    simp [jsAssign, jsLookup]
  | cons p rest ih =>
    intro m k
    unfold jsAssign at ih ⊢
    rw [List.foldl_cons, ih, isSome_jsLookup_jsInsert, jsLookup]
    by_cases hp : p.1 = k
    · rw [if_pos hp]
      simp [hp.symm]
    · rw [if_neg hp]
      have : ¬ k = p.1 := fun hh => hp hh.symm
      simp [this]

theorem mem_jsAssign {β : Type} :
    ∀ (extra m : List (String × β)) (q : String × β),
      q ∈ jsAssign m extra → q ∈ m ∨ q ∈ extra := by
  intro extra
  induction extra with
  | nil =>
    intro m q hq
    exact Or.inl hq
  | cons p rest ih =>
    intro m q hq
    unfold jsAssign at ih hq
    rw [List.foldl_cons] at hq
    rcases ih _ q hq with h1 | h1
    · rcases mem_jsInsert h1 with h2 | h2
      · exact Or.inr (h2 ▸ List.mem_cons_self p rest)
      · exact Or.inl h2
    · exact Or.inr (List.mem_cons_of_mem p h1)

/-- Invariant tying the path tree to the result document: every child is
named structurally from its parent, is not the root, its name is already a
key of the document, and its subtree satisfies the same invariant. -/
inductive TreeNamesIn : PathNode → Doc → Prop where
  | mk : ∀ (name : String) (isRoot : Bool) (children : List (String × PathNode)) (doc : Doc),
      (∀ p ∈ children, (p : String × PathNode).2.name = name ++ titlecase (stripBraces p.1)) →
      (∀ p ∈ children, (p : String × PathNode).2.isRoot = false) →
      (∀ p ∈ children, (jsLookup doc (p : String × PathNode).2.name).isSome = true) →
      (∀ p ∈ children, TreeNamesIn (p : String × PathNode).2 doc) →
      TreeNamesIn (.mk name isRoot children) doc

theorem TreeNamesIn_mono {t : PathNode} {doc : Doc} (h : TreeNamesIn t doc) :
    ∀ doc' : Doc,
      (∀ k, (jsLookup doc k).isSome = true → (jsLookup doc' k).isSome = true) →
      TreeNamesIn t doc' := by
  induction h with
  | mk name isRoot children doc hnames hroots hkeys _ ih =>
    intro doc' hsub
    exact TreeNamesIn.mk name isRoot children doc' hnames hroots
      (fun p hp => hsub _ (hkeys p hp)) (fun p hp => ih p hp doc' hsub)

end Rise

namespace Rise

theorem PathNode.name_mk (n : String) (r : Bool) (c : List (String × PathNode)) :
    (PathNode.mk n r c).name = n := rfl

theorem PathNode.isRoot_mk (n : String) (r : Bool) (c : List (String × PathNode)) :
    (PathNode.mk n r c).isRoot = r := rfl

theorem PathNode.children_mk (n : String) (r : Bool) (c : List (String × PathNode)) :
    (PathNode.mk n r c).children = c := rfl

theorem isSome_jsLookup_single {β : Type} (a k : String) (v : β) :
    (jsLookup [(a, v)] k).isSome = true ↔ a = k := by
  rw [jsLookup]
  by_cases h : a = k
  · simp [h, jsLookup]
  · simp [h, jsLookup]

/-- The central characterization of the token walk: names and root flags
are stable, the tree/document invariant is preserved, the keys added to
the document are exactly the keys of the path's write sequence, and every
entry of the resulting document is an entry of some write list `W` that
covers both the path's writes and the incoming document. -/
theorem walkTokens_spec (ds : DefaultSetting) (methods : MethodMap) :
    ∀ (tokens : List String) (parent : PathNode) (doc : Doc),
      TreeNamesIn parent doc →
      ((walkTokens ds methods tokens parent doc).1.name = parent.name ∧
       (walkTokens ds methods tokens parent doc).1.isRoot = parent.isRoot) ∧
      TreeNamesIn (walkTokens ds methods tokens parent doc).1
        (walkTokens ds methods tokens parent doc).2 ∧
      (∀ k, (jsLookup (walkTokens ds methods tokens parent doc).2 k).isSome = true ↔
        ((jsLookup (pathWrites ds methods tokens parent.name parent.isRoot) k).isSome = true ∨
         (jsLookup doc k).isSome = true)) ∧
      (∀ W : List (String × Resource),
        (∀ q ∈ pathWrites ds methods tokens parent.name parent.isRoot,
          jsLookup W q.1 = some q.2) →
        (∀ q ∈ doc, jsLookup W q.1 = some q.2) →
        ∀ q ∈ (walkTokens ds methods tokens parent doc).2, jsLookup W q.1 = some q.2) := by
  intro tokens
  induction tokens with
  | nil =>
    intro parent doc hinv
    refine ⟨⟨rfl, rfl⟩, hinv, ?_, ?_⟩
    · intro k
      simp [walkTokens, pathWrites, jsLookup]
    · intro W _ hdoc q hq
      exact hdoc q hq
  | cons token rest ih =>
    intro parent doc hinv
    by_cases htok : token = ""
    · subst htok
      have hw : walkTokens ds methods ("" :: rest) parent doc =
          walkTokens ds methods rest parent
            (jsAssign doc (createAPIMethod parent ds methods)) := by
        simp [walkTokens]
      have hpw : pathWrites ds methods ("" :: rest) parent.name parent.isRoot =
          createAPIMethod (.mk parent.name parent.isRoot []) ds methods ++
            pathWrites ds methods rest parent.name parent.isRoot := by
        simp [pathWrites]
      have hstub := createAPIMethod_stub parent ds methods
      set CM := createAPIMethod parent ds methods with hCM
      set doc1 := jsAssign doc CM with hdoc1
      have hgrow1 : ∀ k, (jsLookup doc k).isSome = true →
          (jsLookup doc1 k).isSome = true := by
        intro k hk
        exact (isSome_jsLookup_jsAssign CM doc k).mpr (Or.inr hk)
      have hinv1 : TreeNamesIn parent doc1 := TreeNamesIn_mono hinv doc1 hgrow1
      obtain ⟨⟨hn2, hr2⟩, hinv2, hmem2, hpres2⟩ := ih parent doc1 hinv1
      rw [hw, hpw]
      refine ⟨⟨hn2, hr2⟩, hinv2, ?_, ?_⟩
      · intro k
        rw [hmem2 k, isSome_jsLookup_append, isSome_jsLookup_jsAssign]
        rw [← hstub]
        tauto
      · intro W hsub hdoc q hq
        refine hpres2 W ?_ ?_ q hq
        · intro q' hq'
          exact hsub q' (List.mem_append.mpr (Or.inr hq'))
        · intro q' hq'
          rcases mem_jsAssign CM doc q' hq' with h1 | h1
          · exact hdoc q' h1
          · refine hsub q' (List.mem_append.mpr (Or.inl ?_))
            rw [← hstub]
            exact h1
    · cases hinv with
      | mk name isRoot children doc hnames hroots hkeys hrec =>
        have hpw : pathWrites ds methods (token :: rest)
            (PathNode.mk name isRoot children).name
            (PathNode.mk name isRoot children).isRoot =
            createAPIResource (.mk name isRoot [])
                (name ++ titlecase (stripBraces token)) token ++
              ((if rest.isEmpty then
                  createAPIMethod
                    (.mk (name ++ titlecase (stripBraces token)) false []) ds methods
                else []) ++
                pathWrites ds methods rest (name ++ titlecase (stripBraces token)) false) := by
          simp only [pathWrites, PathNode.name_mk, PathNode.isRoot_mk]
          rw [if_neg htok]
        set cname := name ++ titlecase (stripBraces token) with hcname
        cases hchild : jsLookup children token with
        | some child =>
          have hmemc : (token, child) ∈ children := mem_of_jsLookup_eq_some hchild
          have hcn : child.name = cname := hnames _ hmemc
          have hcr : child.isRoot = false := hroots _ hmemc
          have hck : (jsLookup doc child.name).isSome = true := hkeys _ hmemc
          have hctree : TreeNamesIn child doc := hrec _ hmemc
          have hw : walkTokens ds methods (token :: rest)
              (PathNode.mk name isRoot children) doc =
              (PathNode.mk name isRoot
                (jsInsert children token
                  (walkTokens ds methods rest child
                    (if rest.isEmpty then
                      jsAssign doc (createAPIMethod child ds methods)
                    else doc)).1),
               (walkTokens ds methods rest child
                 (if rest.isEmpty then
                   jsAssign doc (createAPIMethod child ds methods)
                 else doc)).2) := by
            simp only [walkTokens, PathNode.children_mk, PathNode.name_mk, PathNode.isRoot_mk]
            rw [if_neg htok, hchild]
          set CMc := createAPIMethod child ds methods with hCMc
          have hstubc : CMc = createAPIMethod (.mk cname false []) ds methods := by
            rw [hCMc, createAPIMethod_stub child, hcn, hcr]
          set result1 := if rest.isEmpty then jsAssign doc CMc else doc with hres1
          have hgrow1 : ∀ k, (jsLookup doc k).isSome = true →
              (jsLookup result1 k).isSome = true := by
            intro k hk
            rw [hres1]
            by_cases hre : rest.isEmpty
            · rw [if_pos hre]
              exact (isSome_jsLookup_jsAssign CMc doc k).mpr (Or.inr hk)
            · rw [if_neg hre]
              exact hk
          have hres1mem : ∀ k, (jsLookup result1 k).isSome = true ↔
              ((jsLookup (if rest.isEmpty then CMc else []) k).isSome = true ∨
               (jsLookup doc k).isSome = true) := by
            intro k
            rw [hres1]
            by_cases hre : rest.isEmpty
            · rw [if_pos hre, if_pos hre]
              exact isSome_jsLookup_jsAssign CMc doc k
            · rw [if_neg hre, if_neg hre]
              simp [jsLookup]
          have hinvc1 : TreeNamesIn child result1 := TreeNamesIn_mono hctree result1 hgrow1
          obtain ⟨⟨hn2, hr2⟩, hinv2, hmem2, hpres2⟩ := ih child result1 hinvc1
          rw [hcn, hcr] at hmem2 hpres2
          rw [hw, hpw]
          set next := walkTokens ds methods rest child result1 with hnext
          have hgrow2 : ∀ k, (jsLookup doc k).isSome = true →
              (jsLookup next.2 k).isSome = true := by
            intro k hk
            exact (hmem2 k).mpr (Or.inr (hgrow1 k hk))
          refine ⟨⟨rfl, rfl⟩, ?_, ?_, ?_⟩
          · refine TreeNamesIn.mk name isRoot _ next.2 ?_ ?_ ?_ ?_
            · intro p hp
              rcases mem_jsInsert hp with h1 | h1
              · rw [h1]
                dsimp only
                rw [hn2, hcn]
              · exact hnames p h1
            · intro p hp
              rcases mem_jsInsert hp with h1 | h1
              · rw [h1]
                dsimp only
                rw [hr2, hcr]
              · exact hroots p h1
            · intro p hp
              rcases mem_jsInsert hp with h1 | h1
              · rw [h1]
                dsimp only
                rw [hn2]
                exact hgrow2 _ (hcn ▸ hck)
              · exact hgrow2 _ (hkeys p h1)
            · intro p hp
              rcases mem_jsInsert hp with h1 | h1
              · rw [h1]
                exact hinv2
              · exact TreeNamesIn_mono (hrec p h1) next.2 hgrow2
          · intro k
            rw [hmem2 k, hres1mem k, isSome_jsLookup_append, isSome_jsLookup_append]
            by_cases hk : cname = k
            · subst hk
              have hdockey : (jsLookup doc cname).isSome = true := hcn ▸ hck
              have hcr1 : (jsLookup (createAPIResource (.mk name isRoot []) cname token)
                  cname).isSome = true := by
                rw [createAPIResource]
                exact (isSome_jsLookup_single _ _ _).mpr rfl
              constructor
              · intro _
                exact Or.inl (Or.inl hcr1)
              · intro _
                exact Or.inr (Or.inr hdockey)
            · have hcr0 : (jsLookup (createAPIResource (.mk name isRoot []) cname token)
                  k).isSome = true ↔ False := by
                rw [createAPIResource]
                constructor
                · intro hh
                  exact hk ((isSome_jsLookup_single _ _ _).mp hh)
                · intro hh
                  cases hh
              rw [hcr0]
              rw [← hstubc]
              simp only [false_or, or_assoc]
              exact or_left_comm
          · intro W hsub hdoc q hq
            refine hpres2 W ?_ ?_ q hq
            · intro q' hq'
              exact hsub q' (List.mem_append.mpr (Or.inr (List.mem_append.mpr (Or.inr hq'))))
            · intro q' hq'
              rw [hres1] at hq'
              by_cases hre : rest.isEmpty
              · rw [if_pos hre] at hq'
                rcases mem_jsAssign CMc doc q' hq' with h1 | h1
                · exact hdoc q' h1
                · refine hsub q' (List.mem_append.mpr (Or.inr (List.mem_append.mpr (Or.inl ?_))))
                  rw [if_pos hre]
                  rw [← hstubc]
                  exact h1
              · rw [if_neg hre] at hq'
                exact hdoc q' hq'
        | none =>
          have hw : walkTokens ds methods (token :: rest)
              (PathNode.mk name isRoot children) doc =
              (PathNode.mk name isRoot
                (jsInsert children token
                  (walkTokens ds methods rest (PathNode.mk cname false [])
                    (if rest.isEmpty then
                      jsAssign (jsAssign doc
                        (createAPIResource (PathNode.mk name isRoot children) cname token))
                        (createAPIMethod (PathNode.mk cname false []) ds methods)
                    else
                      jsAssign doc
                        (createAPIResource (PathNode.mk name isRoot children) cname token))).1),
               (walkTokens ds methods rest (PathNode.mk cname false [])
                 (if rest.isEmpty then
                   jsAssign (jsAssign doc
                     (createAPIResource (PathNode.mk name isRoot children) cname token))
                     (createAPIMethod (PathNode.mk cname false []) ds methods)
                 else
                   jsAssign doc
                     (createAPIResource (PathNode.mk name isRoot children) cname token))).2) := by
            simp only [walkTokens, PathNode.children_mk, PathNode.name_mk, PathNode.isRoot_mk]
            rw [if_neg htok, hchild]
          have hstubr : createAPIResource (PathNode.mk name isRoot children) cname token =
              createAPIResource (.mk name isRoot []) cname token := by
            rw [createAPIResource_stub (PathNode.mk name isRoot children)]
            rfl
          set CR := createAPIResource (PathNode.mk name isRoot children) cname token with hCR
          set CMc := createAPIMethod (PathNode.mk cname false []) ds methods with hCMc
          set result1 := jsAssign doc CR with hres1
          set result2 := if rest.isEmpty then jsAssign result1 CMc else result1 with hres2
          have hgrow1 : ∀ k, (jsLookup doc k).isSome = true →
              (jsLookup result2 k).isSome = true := by
            intro k hk
            have h1 : (jsLookup result1 k).isSome = true :=
              (isSome_jsLookup_jsAssign CR doc k).mpr (Or.inr hk)
            rw [hres2]
            by_cases hre : rest.isEmpty
            · rw [if_pos hre]
              exact (isSome_jsLookup_jsAssign CMc result1 k).mpr (Or.inr h1)
            · rw [if_neg hre]
              exact h1
          have hres2mem : ∀ k, (jsLookup result2 k).isSome = true ↔
              ((jsLookup (if rest.isEmpty then CMc else []) k).isSome = true ∨
               (jsLookup CR k).isSome = true ∨ (jsLookup doc k).isSome = true) := by
            intro k
            rw [hres2]
            by_cases hre : rest.isEmpty
            · rw [if_pos hre, if_pos hre, isSome_jsLookup_jsAssign,
                isSome_jsLookup_jsAssign]
            · rw [if_neg hre, if_neg hre, isSome_jsLookup_jsAssign]
              simp [jsLookup]
          have hinvc1 : TreeNamesIn (PathNode.mk cname false []) result2 := by
            refine TreeNamesIn.mk cname false [] result2 ?_ ?_ ?_ ?_ <;>
              intro p hp <;> cases hp
          obtain ⟨⟨hn2, hr2⟩, hinv2, hmem2, hpres2⟩ :=
            ih (PathNode.mk cname false []) result2 hinvc1
          rw [PathNode.name_mk, PathNode.isRoot_mk] at hmem2 hpres2
          rw [hw, hpw]
          set next := walkTokens ds methods rest (PathNode.mk cname false []) result2 with hnext
          have hcnamekey : (jsLookup result2 cname).isSome = true := by
            rw [hres2mem cname]
            refine Or.inr (Or.inl ?_)
            rw [hCR, createAPIResource]
            exact (isSome_jsLookup_single _ _ _).mpr rfl
          have hgrow2 : ∀ k, (jsLookup doc k).isSome = true →
              (jsLookup next.2 k).isSome = true := by
            intro k hk
            exact (hmem2 k).mpr (Or.inr (hgrow1 k hk))
          refine ⟨⟨rfl, rfl⟩, ?_, ?_, ?_⟩
          · refine TreeNamesIn.mk name isRoot _ next.2 ?_ ?_ ?_ ?_
            · intro p hp
              rcases mem_jsInsert hp with h1 | h1
              · rw [h1]
                dsimp only
                rw [hn2]
                exact hcname
              · exact hnames p h1
            · intro p hp
              rcases mem_jsInsert hp with h1 | h1
              · rw [h1]
                dsimp only
                rw [hr2]
                rfl
              · exact hroots p h1
            · intro p hp
              rcases mem_jsInsert hp with h1 | h1
              · rw [h1]
                dsimp only
                rw [hn2]
                exact (hmem2 cname).mpr (Or.inr hcnamekey)
              · exact hgrow2 _ (hkeys p h1)
            · intro p hp
              rcases mem_jsInsert hp with h1 | h1
              · rw [h1]
                exact hinv2
              · exact TreeNamesIn_mono (hrec p h1) next.2 hgrow2
          · intro k
            rw [hmem2 k, hres2mem k, isSome_jsLookup_append, isSome_jsLookup_append]
            rw [hstubr]
            tauto
          · intro W hsub hdoc q hq
            refine hpres2 W ?_ ?_ q hq
            · intro q' hq'
              exact hsub q' (List.mem_append.mpr (Or.inr (List.mem_append.mpr (Or.inr hq'))))
            · intro q' hq'
              rw [hres2] at hq'
              have hres1case : ∀ q'' : String × Resource, q'' ∈ result1 →
                  jsLookup W q''.1 = some q''.2 := by
                intro q'' hq''
                rcases mem_jsAssign CR doc q'' hq'' with h1 | h1
                · exact hdoc q'' h1
                · refine hsub q'' (List.mem_append.mpr (Or.inl ?_))
                  rw [← hstubr]
                  exact h1
              by_cases hre : rest.isEmpty
              · rw [if_pos hre] at hq'
                rcases mem_jsAssign CMc result1 q' hq' with h1 | h1
                · exact hres1case q' h1
                · refine hsub q' (List.mem_append.mpr (Or.inr (List.mem_append.mpr (Or.inl ?_))))
                  rw [if_pos hre]
                  exact h1
              · rw [if_neg hre] at hq'
                exact hres1case q' hq'

end Rise

namespace Rise

/-- The default-settings record a route map resolves to. -/
def routeDefault (r : Routes) : DefaultSetting := r.xRiseDefault.getD {}

/-- All writes of a route map, path by path in map order, each path
starting from the distinguished root. -/
def allWrites (ds : DefaultSetting) (paths : List (String × MethodMap)) :
    List (String × Resource) :=
  paths.flatMap (fun pm =>
    pathWrites ds pm.2 (splitOnSlash (trimPath pm.1)) "RiseAPIResource" true)

/-- No name is assigned two different fragments anywhere in the route
map's writes (no two paths alias the same node with different content, and
no path collides with itself). -/
def writesAgree (ws : List (String × Resource)) : Prop :=
  ∀ p ∈ ws, ∀ q ∈ ws, p.1 = q.1 → p.2 = q.2

instance writesAgreeDecidable (ws : List (String × Resource)) :
    Decidable (writesAgree ws) :=
  inferInstanceAs (Decidable (∀ p ∈ ws, ∀ q ∈ ws, p.1 = q.1 → p.2 = q.2))

theorem apiFold_spec (ds : DefaultSetting) :
    ∀ (paths : List (String × MethodMap)) (tree : PathNode) (doc : Doc),
      TreeNamesIn tree doc →
      tree.name = "RiseAPIResource" →
      tree.isRoot = true →
      (∀ k, (jsLookup (paths.foldl (fun (acc : PathNode × Doc) pm =>
          walkTokens ds pm.2 (splitOnSlash (trimPath pm.1)) acc.1 acc.2) (tree, doc)).2
            k).isSome = true ↔
        ((jsLookup (allWrites ds paths) k).isSome = true ∨
         (jsLookup doc k).isSome = true)) ∧
      (∀ W : List (String × Resource),
        (∀ q ∈ allWrites ds paths, jsLookup W q.1 = some q.2) →
        (∀ q ∈ doc, jsLookup W q.1 = some q.2) →
        ∀ q ∈ (paths.foldl (fun (acc : PathNode × Doc) pm =>
          walkTokens ds pm.2 (splitOnSlash (trimPath pm.1)) acc.1 acc.2) (tree, doc)).2,
          jsLookup W q.1 = some q.2) := by
  intro paths
  induction paths with
  | nil =>
    intro tree doc _ _ _
    constructor
    · intro k
      simp [allWrites, jsLookup]
    · intro W _ hdoc q hq
      exact hdoc q hq
  | cons pm rest ih =>
    intro tree doc hinv hname hroot
    obtain ⟨⟨hn1, hr1⟩, hinv1, hmem1, hpres1⟩ :=
      walkTokens_spec ds pm.2 (splitOnSlash (trimPath pm.1)) tree doc hinv
    rw [hname, hroot] at hmem1 hpres1
    set acc1 := walkTokens ds pm.2 (splitOnSlash (trimPath pm.1)) tree doc with hacc1
    obtain ⟨ihmem, ihpres⟩ := ih acc1.1 acc1.2 hinv1 (hn1.trans hname) (hr1.trans hroot)
    have hall : allWrites ds (pm :: rest) =
        pathWrites ds pm.2 (splitOnSlash (trimPath pm.1)) "RiseAPIResource" true ++
          allWrites ds rest := by
      simp [allWrites]
    constructor
    · intro k
      rw [List.foldl_cons]
      rw [hall]
      have : (rest.foldl (fun (acc : PathNode × Doc) pm =>
          walkTokens ds pm.2 (splitOnSlash (trimPath pm.1)) acc.1 acc.2) acc1) =
          (rest.foldl (fun (acc : PathNode × Doc) pm =>
            walkTokens ds pm.2 (splitOnSlash (trimPath pm.1)) acc.1 acc.2)
            (acc1.1, acc1.2)) := by
        rw [hacc1]
      rw [this, ihmem k, hmem1 k, isSome_jsLookup_append]
      tauto
    · intro W hsub hdoc q hq
      rw [List.foldl_cons] at hq
      have : (rest.foldl (fun (acc : PathNode × Doc) pm =>
          walkTokens ds pm.2 (splitOnSlash (trimPath pm.1)) acc.1 acc.2) acc1) =
          (rest.foldl (fun (acc : PathNode × Doc) pm =>
            walkTokens ds pm.2 (splitOnSlash (trimPath pm.1)) acc.1 acc.2)
            (acc1.1, acc1.2)) := by
        rw [hacc1]
      rw [this] at hq
      refine ihpres W ?_ ?_ q hq
      · intro q' hq'
        refine hsub q' ?_
        rw [hall]
        exact List.mem_append.mpr (Or.inr hq')
      · intro q' hq'
        refine hpres1 W ?_ ?_ q' hq'
        · intro q'' hq''
          refine hsub q'' ?_
          rw [hall]
          exact List.mem_append.mpr (Or.inl hq'')
        · exact hdoc

/-- The result document of route synthesis, read as a name → fragment
mapping, is characterized by the route map's write multiset: a name is
present exactly when some path writes it, and — when no two writes assign
different fragments to one name — the fragment at each name is the one the
writes assign. -/
theorem getAPIResources_characterization (r : Routes) :
    (∀ k, (jsLookup (getAPIResources r) k).isSome = true ↔
      (jsLookup (allWrites (routeDefault r) r.paths) k).isSome = true) ∧
    (writesAgree (allWrites (routeDefault r) r.paths) →
      ∀ k, jsLookup (getAPIResources r) k =
        jsLookup (allWrites (routeDefault r) r.paths) k) := by
  have hroot : TreeNamesIn (PathNode.mk "RiseAPIResource" true []) [] := by
    refine TreeNamesIn.mk _ _ _ _ ?_ ?_ ?_ ?_ <;> intro p hp <;> cases hp
  obtain ⟨hmem, hpres⟩ :=
    apiFold_spec (routeDefault r) r.paths (PathNode.mk "RiseAPIResource" true []) []
      hroot rfl rfl
  have hget : getAPIResources r =
      (r.paths.foldl (fun (acc : PathNode × Doc) pm =>
        walkTokens (routeDefault r) pm.2 (splitOnSlash (trimPath pm.1)) acc.1 acc.2)
        (PathNode.mk "RiseAPIResource" true [], [])).2 := by
    rfl
  constructor
  · intro k
    rw [hget, hmem k]
    simp [jsLookup]
  · intro hagree k
    have hsub : ∀ q ∈ allWrites (routeDefault r) r.paths,
        jsLookup (allWrites (routeDefault r) r.paths) q.1 = some q.2 := by
      intro q hq
      have hq' : (q.1, q.2) ∈ allWrites (routeDefault r) r.paths := by
        rw [Prod.mk.eta]
        exact hq
      have hs : (jsLookup (allWrites (routeDefault r) r.paths) q.1).isSome = true :=
        isSome_jsLookup_iff_mem.mpr ⟨q.2, hq'⟩
      cases hv : jsLookup (allWrites (routeDefault r) r.paths) q.1 with
      | none =>
        rw [hv] at hs
        cases hs
      | some v =>
        have hvm := mem_of_jsLookup_eq_some hv
        exact congrArg some (hagree _ hvm _ hq' rfl)
    have hall := hpres (allWrites (routeDefault r) r.paths) hsub
      (fun q hq => by cases hq)
    cases hfin : jsLookup (getAPIResources r) k with
    | some v =>
      have hm := mem_of_jsLookup_eq_some hfin
      rw [hget] at hm
      exact (hall _ hm).symm
    | none =>
      cases hv : jsLookup (allWrites (routeDefault r) r.paths) k with
      | none => rfl
      | some v =>
        exfalso
        have hT : (jsLookup (getAPIResources r) k).isSome = true := by
          rw [hget, hmem k]
          refine Or.inl ?_
          rw [hv]
          rfl
        rw [hfin] at hT
        cases hT

end Rise

namespace Rise

/-- C6 (amended): for any two orderings of the route map the set of
synthesized resource names is identical (root path included); and whenever
no two writes of the map assign different fragments to one name — in
particular whenever no two distinct paths alias the same node — the whole
synthesized document, preflight method lists included, is identical as a
name → fragment mapping. -/
theorem getAPIResources_perm_invariant (r1 r2 : Routes)
    (hperm : r1.paths.Perm r2.paths) (hdef : r1.xRiseDefault = r2.xRiseDefault) :
    (∀ k, (jsLookup (getAPIResources r1) k).isSome =
      (jsLookup (getAPIResources r2) k).isSome) ∧
    (writesAgree (allWrites (routeDefault r1) r1.paths) →
      ∀ k, jsLookup (getAPIResources r1) k = jsLookup (getAPIResources r2) k) := by
  have hds : routeDefault r1 = routeDefault r2 := by
    rw [routeDefault, routeDefault, hdef]
  have hwperm : (allWrites (routeDefault r1) r1.paths).Perm
      (allWrites (routeDefault r1) r2.paths) :=
    List.Perm.flatMap_right _ hperm
  have hw2 : allWrites (routeDefault r1) r2.paths = allWrites (routeDefault r2) r2.paths := by
    rw [hds]
  obtain ⟨hmem1, hlook1⟩ := getAPIResources_characterization r1
  obtain ⟨hmem2, hlook2⟩ := getAPIResources_characterization r2
  have hmemW : ∀ k, (jsLookup (allWrites (routeDefault r1) r1.paths) k).isSome =
      (jsLookup (allWrites (routeDefault r2) r2.paths) k).isSome := by
    intro k
    rw [← hw2]
    cases h1 : (jsLookup (allWrites (routeDefault r1) r1.paths) k).isSome
    · cases h2 : (jsLookup (allWrites (routeDefault r1) r2.paths) k).isSome
      · rfl
      · exfalso
        obtain ⟨v, hv⟩ := isSome_jsLookup_iff_mem.mp h2
        have : (jsLookup (allWrites (routeDefault r1) r1.paths) k).isSome = true :=
          isSome_jsLookup_iff_mem.mpr ⟨v, hwperm.mem_iff.mpr hv⟩
        rw [h1] at this
        cases this
    · obtain ⟨v, hv⟩ := isSome_jsLookup_iff_mem.mp h1
      exact (isSome_jsLookup_iff_mem.mpr ⟨v, hwperm.mem_iff.mp hv⟩).symm
  constructor
  · intro k
    cases h2 : (jsLookup (getAPIResources r2) k).isSome
    · cases h1 : (jsLookup (getAPIResources r1) k).isSome
      · rfl
      · exfalso
        have hb := (hmem2 k).mpr (by rw [← hmemW k]; exact (hmem1 k).mp h1)
        rw [h2] at hb
        cases hb
    · exact (hmem1 k).mpr (by rw [hmemW k]; exact (hmem2 k).mp h2)
  · intro hagree k
    have hagree2 : writesAgree (allWrites (routeDefault r2) r2.paths) := by
      rw [← hw2]
      intro p hp q hq hk
      exact hagree p (hwperm.mem_iff.mpr hp) q (hwperm.mem_iff.mpr hq) hk
    rw [hlook1 hagree k, hlook2 hagree2 k, ← hw2]
    cases hv : jsLookup (allWrites (routeDefault r1) r1.paths) k with
    | none =>
      cases hv2 : jsLookup (allWrites (routeDefault r1) r2.paths) k with
      | none => rfl
      | some v =>
        exfalso
        obtain ⟨w, hw⟩ := isSome_jsLookup_iff_mem.mp (by rw [hv2]; rfl)
        have : (jsLookup (allWrites (routeDefault r1) r1.paths) k).isSome = true :=
          isSome_jsLookup_iff_mem.mpr ⟨w, hwperm.mem_iff.mpr hw⟩
        rw [hv] at this
        cases this
    | some v =>
      have hvm := mem_of_jsLookup_eq_some hv
      cases hv2 : jsLookup (allWrites (routeDefault r1) r2.paths) k with
      | none =>
        exfalso
        have : (jsLookup (allWrites (routeDefault r1) r2.paths) k).isSome = true :=
          isSome_jsLookup_iff_mem.mpr ⟨v, hwperm.mem_iff.mp hvm⟩
        rw [hv2] at this
        cases this
      | some w =>
        have hwm := mem_of_jsLookup_eq_some hv2
        exact congrArg some (hagree _ hvm _ (hwperm.mem_iff.mpr hwm) rfl)

/-- C6 counterexample, first ordering: `/foo` (GET, CORS) before `foo`
(POST, CORS) — two distinct map keys normalizing to the same node. -/
def c6MapA : Routes :=
  ⟨[("/foo", [("get", { function := "f", cors := some true })]),
    ("foo", [("post", { function := "g", cors := some true })])], none⟩

/-- C6 counterexample, second ordering: the same two entries swapped. -/
def c6MapB : Routes :=
  ⟨[("foo", [("post", { function := "g", cors := some true })]),
    ("/foo", [("get", { function := "f", cors := some true })])], none⟩

/-- C6 counterexample: the two orderings are permutations of one map, yet
the preflight fragment of node `RiseAPIResourceFoo` lists `POST,OPTIONS`
under one ordering and `GET,OPTIONS` under the other — the preflight
method list is NOT identical for every ordering of every route map. -/
theorem getAPIResources_preflight_order_dependent :
    c6MapA.paths.Perm c6MapB.paths ∧
    jsLookup (getAPIResources c6MapA) "RiseAPIResourceFooOPTIONS" =
      some (.apiCors "POST,OPTIONS" (.ref "RiseAPIResourceFoo")) ∧
    jsLookup (getAPIResources c6MapB) "RiseAPIResourceFooOPTIONS" =
      some (.apiCors "GET,OPTIONS" (.ref "RiseAPIResourceFoo")) ∧
    jsLookup (getAPIResources c6MapA) "RiseAPIResourceFooOPTIONS" ≠
      jsLookup (getAPIResources c6MapB) "RiseAPIResourceFooOPTIONS" := by
  refine ⟨?_, ?_, ?_, ?_⟩ <;> decide

/-- C6 witness maps: two disjoint paths (one of them the root path `/`),
swapped. -/
def c6wA : Routes :=
  ⟨[("/", [("get", { function := "appIndex", cors := some true })]),
    ("/users", [("post", { function := "addUser" })])], none⟩

/-- C6 witness maps, swapped ordering. -/
def c6wB : Routes :=
  ⟨[("/users", [("post", { function := "addUser" })]),
    ("/", [("get", { function := "appIndex", cors := some true })])], none⟩

/-- Witness for C6 (amended) at a concrete non-aliasing map containing the
root path: both the name-set equality and the full lookup equality hold at
the root preflight name. -/
theorem getAPIResources_perm_invariant_witness :
    (jsLookup (getAPIResources c6wA) "RiseAPIResourceOPTIONS").isSome =
      (jsLookup (getAPIResources c6wB) "RiseAPIResourceOPTIONS").isSome ∧
    jsLookup (getAPIResources c6wA) "RiseAPIResourceOPTIONS" =
      jsLookup (getAPIResources c6wB) "RiseAPIResourceOPTIONS" :=
  ⟨(getAPIResources_perm_invariant c6wA c6wB (by decide) rfl).1 "RiseAPIResourceOPTIONS",
   (getAPIResources_perm_invariant c6wA c6wB (by decide) rfl).2 (by decide)
     "RiseAPIResourceOPTIONS"⟩

end Rise
